import Mathlib

/-!
# Verification of the gstore-node model/schema layer

Shallow embedding of the gstore-node source (`lib/model.js`, `lib/schema.js`)
into Lean 4, together with theorems settling the specification claims about
key building, validation, schema construction, virtuals, update/delete
transaction flows, batch-get reordering, save and sanitize.

JavaScript objects used as string-keyed dictionaries are embedded as
association lists (`List (String × α)`) with JS own-property semantics:
`lookupL` is property read, `setL` is property write (update in place keeps
the original insertion position, a new key is appended, as in V8),
`delL` is the `delete` operator, `hasOwnL` is `hasOwnProperty`.
-/

set_option maxRecDepth 10000

namespace Gstore

/-! ## Association-list primitives (JS objects as dictionaries) -/

def lookupL {α : Type} : List (String × α) → String → Option α
  | [], _ => none
  | (a, b) :: r, k => if a = k then some b else lookupL r k

def hasOwnL {α : Type} (l : List (String × α)) (k : String) : Bool :=
  (lookupL l k).isSome

def setL {α : Type} : List (String × α) → String → α → List (String × α)
  | [], k, v => [(k, v)]
  | (a, b) :: r, k, v => if a = k then (a, v) :: r else (a, b) :: setL r k v

def delL {α : Type} : List (String × α) → String → List (String × α)
  | [], _ => []
  | (a, b) :: r, k => if a = k then delL r k else (a, b) :: delL r k

theorem lookupL_setL_self {α : Type} (l : List (String × α)) (k : String) (v : α) :
    lookupL (setL l k v) k = some v := by
  induction l with
  | nil => simp [setL, lookupL]
  | cons p r ih =>
    obtain ⟨a, b⟩ := p
    by_cases h : a = k <;> simp [setL, lookupL, h, ih]

theorem lookupL_setL_ne {α : Type} (l : List (String × α)) (k j : String) (v : α)
    (h : k ≠ j) : lookupL (setL l k v) j = lookupL l j := by
  induction l with
  | nil => simp [setL, lookupL, h]
  | cons p r ih =>
    obtain ⟨a, b⟩ := p
    by_cases ha : a = k
    · subst ha
      simp [setL, lookupL, h]
    · simp only [setL, if_neg ha, lookupL]
      by_cases hj : a = j
      · simp [hj]
      · simp [hj, ih]

theorem lookupL_delL {α : Type} (l : List (String × α)) (k j : String) :
    lookupL (delL l k) j = if j = k then none else lookupL l j := by
  induction l with
  | nil => simp [delL, lookupL]
  | cons p r ih =>
    obtain ⟨a, b⟩ := p
    simp only [delL]
    by_cases ha : a = k
    · simp only [if_pos ha, ih]
      by_cases hj : j = k
      · simp [hj]
      · have haj : a ≠ j := by
          rw [ha]
          exact fun hh => hj hh.symm
        simp [lookupL, hj, haj]
    · by_cases haj : a = j
      · have hjk : j ≠ k := by
          rw [← haj]
          exact ha
        simp [lookupL, ha, haj, hjk]
      · simp [lookupL, ha, haj, ih]

theorem lookupL_of_mem_nodup {α : Type} {l : List (String × α)} {k : String} {v : α}
    (hmem : (k, v) ∈ l) (hnd : (l.map Prod.fst).Nodup) : lookupL l k = some v := by
  induction l with
  | nil => cases hmem
  | cons p r ih =>
    obtain ⟨a, b⟩ := p
    simp only [List.map_cons, List.nodup_cons] at hnd
    rcases List.mem_cons.mp hmem with h | h
    · cases h
      simp [lookupL]
    · have hak : a ≠ k := by
        intro hEq
        subst hEq
        exact hnd.1 (List.mem_map.mpr ⟨(a, v), h, rfl⟩)
      simp [lookupL, hak, ih h hnd.2]

theorem lookupL_isSome_ne_nil {α : Type} {l : List (String × α)} {k : String} {v : α}
    (h : lookupL l k = some v) : l ≠ [] := by
  intro hnil
  subst hnil
  simp [lookupL] at h

/-! ## JS values

`JsVal` models the JavaScript values that flow through entity data bags.
Finite numbers are rationals (`vnum`), `NaN` is separate (`vnan`).
Object-like values (`varr`, `vobj`, the datastore wrapper types `vint` /
`vdouble`, `vbuf`, `vgeo`, `vdate`) carry a `ref : Nat` standing for the
object reference, so that JS strict equality (`===`) on objects is
reference equality. -/

inductive JsVal where
  | vundef
  | vnull
  | vbool (b : Bool)
  | vnum (q : ℚ)
  | vnan
  | vstr (s : String)
  | varr (ref : Nat)
  | vobj (ref : Nat)
  | vint (ref : Nat) (val : String)
  | vdouble (ref : Nat) (val : String)
  | vbuf (ref : Nat)
  | vgeo (ref : Nat)
  | vdate (ref : Nat) (t : Int)
  deriving DecidableEq, Repr

abbrev ObjL := List (String × JsVal)

/-- `typeof v` -/
def jsTypeof : JsVal → String
  | .vundef => "undefined"
  | .vnull => "object"
  | .vbool _ => "boolean"
  | .vnum _ => "number"
  | .vnan => "number"
  | .vstr _ => "string"
  | _ => "object"

/-- JS truthiness: everything is truthy except `undefined`, `null`, `false`,
`0`, `NaN` and the empty string. -/
def truthyJ : JsVal → Bool
  | .vundef => false
  | .vnull => false
  | .vbool b => b
  | .vnum q => q ≠ 0
  | .vnan => false
  | .vstr s => s ≠ ""
  | _ => true

/-- JS strict equality `===`: `NaN` equals nothing (including itself),
objects compare by reference, primitives by value. -/
def jsStrictEq (a b : JsVal) : Bool :=
  match a, b with
  | .vnan, _ => false
  | _, .vnan => false
  | x, y => x = y

/-! ## JS whitespace and `String.prototype.trim` -/

/-- The WhiteSpace and LineTerminator code points recognised by
`String.prototype.trim` (ES2017). -/
def jsWsChars : List Char :=
  [' ', '\t', '\n', '\r', Char.ofNat 0x0B, Char.ofNat 0x0C,
   Char.ofNat 0xA0, Char.ofNat 0x1680,
   Char.ofNat 0x2000, Char.ofNat 0x2001, Char.ofNat 0x2002, Char.ofNat 0x2003,
   Char.ofNat 0x2004, Char.ofNat 0x2005, Char.ofNat 0x2006, Char.ofNat 0x2007,
   Char.ofNat 0x2008, Char.ofNat 0x2009, Char.ofNat 0x200A,
   Char.ofNat 0x2028, Char.ofNat 0x2029, Char.ofNat 0x202F,
   Char.ofNat 0x205F, Char.ofNat 0x3000, Char.ofNat 0xFEFF]

def jsWS (c : Char) : Bool := c ∈ jsWsChars

def trimLeftC : List Char → List Char
  | [] => []
  | c :: r => if jsWS c then trimLeftC r else c :: r

def trimBothC (l : List Char) : List Char :=
  trimLeftC ((trimLeftC l.reverse).reverse)

/-- `s.trim()` -/
def jsTrim (s : String) : String := ⟨trimBothC s.data⟩

/-! ## C9 — `save` and the `modifiedOn` automatic timestamp

`save` is not just its body: the schema's default middleware
(schema.js, `defaultMiddleware`) registers a pre-`save` hook that, with
the default option `validateBeforeSave: true`, runs `this.validate()`
first and rejects with the first validation error. `validate` mutates
`this.entityData` — it deletes every key declared as a virtual
(model.js 822-825) — so the bag the save body sees is not the caller's
bag. The body itself (model.js 756-767) then overwrites
`entityData.modifiedOn` with the current date-time when the schema
declares a `modifiedOn` path, and serializes. The body step
(`saveEntityData`) is defined here; the full pipeline (`saveOperation`)
is composed below, after the `validate` embedding it needs. -/

structure FieldDesc where
  type : Option String := none
  required : Option Bool := none
  validate : Option String := none
  values : Option (List JsVal) := none
  write : Option Bool := none
  read : Option Bool := none
  deriving DecidableEq, Repr

/-- `if (this.schema.paths.hasOwnProperty('modifiedOn')) this.entityData.modifiedOn = new Date();` -/
def saveEntityData (paths : List (String × FieldDesc)) (entityData : ObjL)
    (now : JsVal) : ObjL :=
  if hasOwnL paths "modifiedOn" then setL entityData "modifiedOn" now
  else entityData

/-- The persisted payload: `datastoreSerializer.toDatastore` applied to the
data bag after the `modifiedOn` step (the serializer is an external
collaborator, taken as a parameter). -/
def savePayload {σ : Type} (ser : ObjL → σ) (paths : List (String × FieldDesc))
    (entityData : ObjL) (now : JsVal) : σ :=
  ser (saveEntityData paths entityData now)

/-! ## C10 — `Model.sanitize` -/

/-- Input to `sanitize`: either an object data bag or any non-object value. -/
inductive SanIn where
  | objIn (d : ObjL)
  | nonObj (v : JsVal)
  deriving DecidableEq, Repr

inductive SanOut where
  | nullOut
  | objOut (d : ObjL)
  deriving DecidableEq, Repr

/-- One key of the sanitize loop: the key is deleted when it is not a
declared schema path or its descriptor has `write === false`; a surviving
value that is the literal string `'null'` becomes `null`. -/
def sanitizeKeep (paths : List (String × FieldDesc)) (k : String) : Bool :=
  hasOwnL paths k && !(((lookupL paths k).map FieldDesc.write).getD none = some false)

def sanitizeVal (v : JsVal) : JsVal :=
  if v = .vstr "null" then .vnull else v

def sanitizeObj (paths : List (String × FieldDesc)) (d : ObjL) : ObjL :=
  d.filterMap fun p =>
    if sanitizeKeep paths p.1 then some (p.1, sanitizeVal p.2) else none

/-- `Model.sanitize` (model.js lines 686-702). -/
def sanitize (paths : List (String × FieldDesc)) : SanIn → SanOut
  | .nonObj _ => .nullOut
  | .objIn d => .objOut (sanitizeObj paths d)

theorem lookupL_sanitizeObj (paths : List (String × FieldDesc)) (d : ObjL)
    (hnd : (d.map Prod.fst).Nodup) (k : String) :
    lookupL (sanitizeObj paths d) k =
      if sanitizeKeep paths k then (lookupL d k).map sanitizeVal else none := by
  induction d with
  | nil => simp [sanitizeObj, lookupL]
  | cons p r ih =>
    obtain ⟨a, v⟩ := p
    simp only [List.map_cons, List.nodup_cons] at hnd
    by_cases hak : a = k
    · subst hak
      by_cases hkeep : sanitizeKeep paths a
      · simp only [sanitizeObj, List.filterMap_cons, hkeep, if_pos]
        simp [lookupL, hkeep]
      · have hlook : lookupL r a = none := by
          cases hv : lookupL r a with
          | none => rfl
          | some w =>
            exact absurd (List.mem_map.mpr ⟨(a, w), lookupL_mem hv, rfl⟩) hnd.1
        simp only [sanitizeObj] at ih ⊢
        simp [List.filterMap_cons, hkeep, ih hnd.2, hlook, lookupL]
    · by_cases hkeep : sanitizeKeep paths a
      · simp only [sanitizeObj] at ih ⊢
        simp [List.filterMap_cons, hkeep, lookupL, hak, ih hnd.2]
      · simp only [sanitizeObj] at ih ⊢
        simp [List.filterMap_cons, hkeep, lookupL, hak, ih hnd.2]
where
  lookupL_mem {r : List (String × JsVal)} {a : String} {w : JsVal}
      (h : lookupL r a = some w) : (a, w) ∈ r := by
    induction r with
    | nil => simp [lookupL] at h
    | cons q t ihr =>
      obtain ⟨x, y⟩ := q
      by_cases hx : x = a
      · subst hx
        simp [lookupL] at h
        simp [h]
      · simp [lookupL, hx] at h
        exact List.mem_cons_of_mem _ (ihr h)

/-! ## Schema construction (`lib/schema.js`) — C7, C8

The constructor rejects a field name `k` when `reserved[k]` is truthy.
`reserved` is a plain object literal, so the lookup walks the prototype
chain: besides the names stored in the table, every property name of
`Object.prototype` (all of whose values are truthy — functions, or the
`__proto__` accessor yielding `Object.prototype` itself) also makes the
lookup truthy. -/

/-- The names stored (with value `true`) in schema.js's `reserved` table. -/
def reservedNames : List String :=
  ["ds", "entityKey", "emit", "on", "once", "listeners", "removeListener",
   "errors", "init", "isModified", "isNew", "get", "modelName", "save",
   "schema", "set", "toObject", "validate", "pre", "post", "_pre", "_post"]

/-- Property names of `Object.prototype`, inherited by the `reserved`
object literal; looking any of them up on `reserved` yields a truthy value. -/
def objectProtoNames : List String :=
  ["constructor", "hasOwnProperty", "isPrototypeOf", "propertyIsEnumerable",
   "toLocaleString", "toString", "valueOf", "__defineGetter__",
   "__defineSetter__", "__lookupGetter__", "__lookupSetter__", "__proto__"]

/-- Truthiness of `reserved[k]`. -/
def reservedTruthy (k : String) : Bool :=
  k ∈ reservedNames || k ∈ objectProtoNames

def pathnameError (k : String) : String :=
  "`" ++ k ++ "` may not be used as a schema pathname"

/-- The `Object.keys(obj).forEach` loop of the Schema constructor:
throws at the first reserved name, otherwise stores each descriptor. -/
def declareFieldsGo (acc : List (String × FieldDesc)) :
    List (String × FieldDesc) → Except String (List (String × FieldDesc))
  | [] => .ok acc
  | (k, d) :: rest =>
    if reservedTruthy k then .error (pathnameError k)
    else declareFieldsGo (setL acc k d) rest

/-- Schema construction from a field-declaration mapping (schema.js 33-39). -/
def declareFields (obj : List (String × FieldDesc)) :
    Except String (List (String × FieldDesc)) :=
  declareFieldsGo [] obj

/-- `Schema.prototype.path(path, obj)` in setter mode (schema.js 81-96). -/
def schemaPathSet (paths : List (String × FieldDesc)) (k : String)
    (d : FieldDesc) : Except String (List (String × FieldDesc)) :=
  if reservedTruthy k then .error (pathnameError k)
  else .ok (setL paths k d)

theorem declareFieldsGo_isOk_false (obj : List (String × FieldDesc)) :
    ∀ acc, (declareFieldsGo acc obj).isOk = false ↔
      ∃ p ∈ obj, reservedTruthy p.1 = true := by
  induction obj with
  | nil => intro acc; simp [declareFieldsGo, Except.isOk, Except.toBool]
  | cons p rest ih =>
    intro acc
    obtain ⟨k, d⟩ := p
    by_cases hk : reservedTruthy k
    · constructor
      · intro _
        exact ⟨(k, d), List.mem_cons_self _ _, hk⟩
      · intro _
        simp [declareFieldsGo, hk, Except.isOk, Except.toBool]
    · constructor
      · intro h
        simp only [declareFieldsGo, hk, if_false] at h
        obtain ⟨q, hq, hr⟩ := (ih (setL acc k d)).mp h
        exact ⟨q, List.mem_cons_of_mem _ hq, hr⟩
      · intro h
        obtain ⟨q, hq, hr⟩ := h
        rcases List.mem_cons.mp hq with he | he
        · subst he
          exact absurd hr hk
        · simp only [declareFieldsGo, hk, if_false]
          exact (ih (setL acc k d)).mpr ⟨q, he, hr⟩

theorem declareFieldsGo_preserve {obj : List (String × FieldDesc)} :
    ∀ {acc ps}, declareFieldsGo acc obj = .ok ps →
      ∀ k, k ∉ obj.map Prod.fst → lookupL ps k = lookupL acc k := by
  induction obj with
  | nil =>
    intro acc ps h k _
    simp [declareFieldsGo] at h
    subst h; rfl
  | cons p rest ih =>
    intro acc ps h k hk
    obtain ⟨a, d⟩ := p
    simp only [List.map_cons, List.mem_cons] at hk
    push_neg at hk
    by_cases ha : reservedTruthy a
    · simp [declareFieldsGo, ha] at h
    · simp only [declareFieldsGo, ha, if_false] at h
      rw [ih h k hk.2, lookupL_setL_ne _ _ _ _ (Ne.symm hk.1)]

theorem declareFieldsGo_ok_lookup {obj : List (String × FieldDesc)} :
    ∀ {acc ps}, declareFieldsGo acc obj = .ok ps →
      (obj.map Prod.fst).Nodup →
      ∀ k d, (k, d) ∈ obj → lookupL ps k = some d := by
  induction obj with
  | nil => intro _ _ _ _ k d h; cases h
  | cons p rest ih =>
    intro acc ps h hnd k d hmem
    obtain ⟨a, b⟩ := p
    simp only [List.map_cons, List.nodup_cons] at hnd
    by_cases ha : reservedTruthy a
    · simp [declareFieldsGo, ha] at h
    · simp only [declareFieldsGo, ha, if_false] at h
      rcases List.mem_cons.mp hmem with hh | hh
      · cases hh
        rw [declareFieldsGo_preserve h k hnd.1, lookupL_setL_self]
      · exact ih h hnd.2 k d hh

/-- C7 counterexample: constructing a schema with a field named
`toString` throws, although `toString` is not in the fixed reserved
identifier set — `reserved['toString']` finds the inherited (truthy)
`Object.prototype.toString`. -/
theorem C7_counterexample :
    (declareFields [("toString", {})]).isOk = false ∧
    "toString" ∉ reservedNames := by
  constructor
  · decide
  · decide

/-- C7 (amended): schema construction throws iff some declared field name
makes the `reserved` lookup truthy — that is, it is in the reserved table
or it is an (inherited) `Object.prototype` property name; otherwise every
descriptor is stored verbatim under its name. `path(k, d)` applies the
same rejection. -/
theorem C7_schema_reserved (obj paths : List (String × FieldDesc))
    (k : String) (d : FieldDesc) :
    ((declareFields obj).isOk = false ↔ ∃ p ∈ obj, reservedTruthy p.1 = true) ∧
    (∀ ps, declareFields obj = .ok ps → (obj.map Prod.fst).Nodup →
      ∀ k' d', (k', d') ∈ obj → lookupL ps k' = some d') ∧
    ((schemaPathSet paths k d).isOk = false ↔ reservedTruthy k = true) ∧
    (reservedTruthy k = false → schemaPathSet paths k d = .ok (setL paths k d)) := by
  refine ⟨declareFieldsGo_isOk_false obj [], ?_, ?_, ?_⟩
  · intro ps h hnd k' d' hmem
    exact declareFieldsGo_ok_lookup h hnd k' d' hmem
  · by_cases hk : reservedTruthy k <;>
      simp [schemaPathSet, hk, Except.isOk, Except.toBool]
  · intro hk
    simp [schemaPathSet, hk]

/-- C7 witness: a non-reserved field is stored verbatim, a reserved one
(`ds`) and an `Object.prototype` name both throw, and `path` setting
succeeds on a fresh name. -/
theorem C7_schema_reserved_witness :
    lookupL ((declareFields [("name", { type := some "string" })]).toOption.getD [])
        "name" = some { type := some "string" } ∧
    (schemaPathSet [] "keyname" {}).isOk = true := by
  have h := C7_schema_reserved [("name", { type := some "string" })] [] "keyname" {}
  have h1 := h.2.1 [("name", { type := some "string" })] rfl (by decide)
      "name" { type := some "string" } (by decide)
  have h2 := h.2.2.2 (by decide)
  constructor
  · simpa [declareFields, declareFieldsGo, setL] using h1
  · rw [h2]; rfl

/-! ## Virtuals (`Schema.prototype.virtual`) — C8

`this.virtuals` is a plain object. `virtual(name)` checks
`hasOwnProperty(name)`, allocates a `new VirtualType(name)` when absent,
assigns `this.virtuals[name] = handle` and returns `this.virtuals[name]`.
The embedding keeps JS property semantics: an assignment to the key
`__proto__` goes through the inherited accessor and replaces the object's
prototype instead of creating an own property, so `hasOwnProperty` keeps
answering false for it. Handles are identified by allocation numbers
(`ref`), so identity-equality of handle objects is equality of refs. -/

structure VDict where
  own : List (String × Nat) := []
  protoRef : Option Nat := none
  deriving DecidableEq, Repr

structure SchemaVt where
  vd : VDict := {}
  nextId : Nat := 0
  deriving DecidableEq, Repr

def vdictHasOwn (d : VDict) (name : String) : Bool :=
  (lookupL d.own name).isSome

def vdictSet (d : VDict) (name : String) (ref : Nat) : VDict :=
  if name = "__proto__" then { d with protoRef := some ref }
  else { d with own := setL d.own name ref }

def vdictGet (d : VDict) (name : String) : Option Nat :=
  if name = "__proto__" then d.protoRef else lookupL d.own name

/-- `Schema.prototype.virtual` (schema.js 143-148); returns the handle
(by its allocation ref) and the updated schema state. -/
def schemaVirtual (s : SchemaVt) (name : String) : Option Nat × SchemaVt :=
  if vdictHasOwn s.vd name then (vdictGet s.vd name, s)
  else
    let vd' := vdictSet s.vd name s.nextId
    (vdictGet vd' name, { vd := vd', nextId := s.nextId + 1 })

/-- C8 counterexample: declaring the virtual `__proto__` twice returns two
distinct handles — the assignment never creates an own property, so the
`hasOwnProperty` guard never fires and a fresh `VirtualType` is allocated
each time. -/
theorem C8_counterexample :
    (schemaVirtual {} "__proto__").1 = some 0 ∧
    (schemaVirtual (schemaVirtual {} "__proto__").2 "__proto__").1 = some 1 ∧
    (schemaVirtual (schemaVirtual {} "__proto__").2 "__proto__").1 ≠
      (schemaVirtual {} "__proto__").1 := by
  refine ⟨?_, ?_, ?_⟩ <;> decide

/-- C8 (amended): for every name other than `__proto__`, declaring a
virtual is idempotent — the second declaration returns the identical
handle and leaves the schema unchanged — and the first declaration of an
absent name allocates exactly one new handle. -/
theorem C8_virtual_idempotent (s : SchemaVt) (name : String)
    (hname : name ≠ "__proto__") :
    (schemaVirtual (schemaVirtual s name).2 name).1 = (schemaVirtual s name).1 ∧
    (schemaVirtual (schemaVirtual s name).2 name).2 = (schemaVirtual s name).2 ∧
    (vdictHasOwn s.vd name = false →
      (schemaVirtual s name).2.nextId = s.nextId + 1 ∧
      (schemaVirtual s name).1 = some s.nextId) ∧
    (vdictHasOwn s.vd name = true → (schemaVirtual s name).2 = s) := by
  by_cases h : vdictHasOwn s.vd name
  · simp [schemaVirtual, h]
  · have hset : (vdictSet s.vd name s.nextId).own = setL s.vd.own name s.nextId := by
      simp [vdictSet, hname]
    have hown : vdictHasOwn (vdictSet s.vd name s.nextId) name = true := by
      simp [vdictHasOwn, hset, lookupL_setL_self]
    have hget : vdictGet (vdictSet s.vd name s.nextId) name = some s.nextId := by
      simp [vdictGet, hname, hset, lookupL_setL_self]
    simp [schemaVirtual, h, hown, hget]

/-- C8 witness: declaring `fullname` on a fresh schema allocates handle 0;
re-declaring returns the same handle and state. -/
theorem C8_virtual_idempotent_witness :
    (schemaVirtual (schemaVirtual {} "fullname").2 "fullname").1 =
      (schemaVirtual {} "fullname").1 ∧
    (schemaVirtual {} "fullname").1 = some 0 ∧
    (schemaVirtual {} "fullname").2.nextId = 1 := by
  have h := C8_virtual_idempotent {} "fullname" (by decide)
  refine ⟨h.1, ?_, ?_⟩
  · exact (h.2.2.1 (by decide)).2
  · exact (h.2.2.1 (by decide)).1

/-! ## C10 claim theorem -/

/-- C10: `sanitize` returns `null` on every non-object input; on an object
it deletes exactly the keys that are not declared schema paths or whose
descriptor has `write === false`, maps the literal string `'null'` of a
surviving key to `null`, and leaves every other surviving value
unchanged. -/
theorem C10_sanitize_spec (paths : List (String × FieldDesc)) (v : JsVal)
    (d : ObjL) (hnd : (d.map Prod.fst).Nodup) :
    sanitize paths (.nonObj v) = .nullOut ∧
    sanitize paths (.objIn d) = .objOut (sanitizeObj paths d) ∧
    (∀ k, lookupL (sanitizeObj paths d) k =
      match lookupL paths k with
      | none => none
      | some desc =>
        if desc.write = some false then none
        else (lookupL d k).map sanitizeVal) ∧
    sanitizeVal (.vstr "null") = .vnull ∧
    (∀ w : JsVal, w ≠ .vstr "null" → sanitizeVal w = w) := by
  refine ⟨rfl, rfl, ?_, rfl, ?_⟩
  · intro k
    rw [lookupL_sanitizeObj paths d hnd k]
    cases hp : lookupL paths k with
    | none => simp [sanitizeKeep, hasOwnL, hp]
    | some desc =>
      by_cases hw : desc.write = some false
      · simp [sanitizeKeep, hasOwnL, hp, hw]
      · simp [sanitizeKeep, hasOwnL, hp, hw]
  · intro w hw
    simp [sanitizeVal, hw]

/-- C10 witness: undeclared and non-writable keys are dropped, `'null'`
becomes `null`, a plain declared value survives unchanged, and a
non-object input yields `null`. -/
theorem C10_sanitize_spec_witness :
    sanitize [("a", {}), ("b", { write := some false })] (.nonObj (.vstr "s")) =
      .nullOut ∧
    lookupL
        (sanitizeObj [("a", {}), ("b", { write := some false })]
          [("a", .vstr "null"), ("b", .vnum 2), ("c", .vnum 3)]) "a" =
      some .vnull ∧
    lookupL
        (sanitizeObj [("a", {}), ("b", { write := some false })]
          [("a", .vstr "null"), ("b", .vnum 2), ("c", .vnum 3)]) "b" = none ∧
    lookupL
        (sanitizeObj [("a", {}), ("b", { write := some false })]
          [("a", .vstr "null"), ("b", .vnum 2), ("c", .vnum 3)]) "c" = none := by
  have h := C10_sanitize_spec [("a", {}), ("b", { write := some false })]
    (.vstr "s") [("a", .vstr "null"), ("b", .vnum 2), ("c", .vnum 3)] (by decide)
  refine ⟨h.1, ?_, ?_, ?_⟩
  · rw [h.2.2.1 "a"]; rfl
  · rw [h.2.2.1 "b"]; rfl
  · rw [h.2.2.1 "c"]; rfl

/-! ## C3 — `Model.deleteAll` batching vs per-entity deletes

Embedding of `Model.deleteAll` (model.js 421-465) and of `Model.delete`
(337-419) as the event trace they produce after the matching query
returned a list of entities. `Model.delete` always runs
`hooks.execPre('delete')`, the backend `ds.delete`, then
`hooks.execPost('delete')`. The hooks registry entry for `'delete'`
exists iff some pre/post delete hook was registered
(`hooks._pres.hasOwnProperty('delete')`). -/

structure KeyM where
  kind : String
  idN : Option Int := none
  name : Option String := none
  deriving DecidableEq, Repr

/-- Registered delete hooks: `none` means the registry has no `'delete'`
entry at all; hook functions are identified by numbers. -/
structure DeleteHooks where
  presD : Option (List Nat) := none
  postsD : Option (List Nat) := none
  deriving DecidableEq, Repr

inductive Ev3 where
  | hpre (f : Nat)
  | hpost (f : Nat)
  | dsdel (ks : List KeyM)
  deriving DecidableEq, Repr

/-- Modelled from the spec: `hooks.execPre('delete', …)` of the external
`promised-hooks` library (not under src/) runs the registered pre-hooks
strictly in registration order (§4.4). -/
def execPreEv (r : DeleteHooks) : List Ev3 := (r.presD.getD []).map .hpre

/-- Modelled from the spec: `hooks.execPost('delete', …)` runs the
registered post-hooks strictly in registration order (§4.4). -/
def execPostEv (r : DeleteHooks) : List Ev3 := (r.postsD.getD []).map .hpost

/-- Non-transactional `Model.delete` on a key (or array of keys):
pre-hooks, one backend `ds.delete` call, post-hooks. -/
def modelDelete (r : DeleteHooks) (ks : List KeyM) : List Ev3 :=
  execPreEv r ++ [.dsdel ks] ++ execPostEv r

/-- `Model.deleteAll` after the query returned `ents`: with a registered
`'delete'` hook entry, one `Model.delete` per entity in query order
(`async.eachSeries`); otherwise a single batch `Model.delete` with every
key. -/
def modelDeleteAll (r : DeleteHooks) (ents : List KeyM) : List Ev3 :=
  if r.presD.isSome || r.postsD.isSome then
    (ents.map fun k => modelDelete r [k]).flatten
  else modelDelete r ents

/-- The key lists passed to the backend `ds.delete`, in call order. -/
def deleteCalls (tr : List Ev3) : List (List KeyM) :=
  tr.filterMap fun e => match e with
    | .dsdel ks => some ks
    | _ => none

def isHpre : Ev3 → Bool
  | .hpre _ => true
  | _ => false

def isHpost : Ev3 → Bool
  | .hpost _ => true
  | _ => false

theorem deleteCalls_append (a b : List Ev3) :
    deleteCalls (a ++ b) = deleteCalls a ++ deleteCalls b := by
  simp [deleteCalls]

theorem deleteCalls_hpre_map (l : List Nat) :
    deleteCalls (l.map Ev3.hpre) = [] := by
  induction l with
  | nil => rfl
  | cons x xs ih =>
    simp only [deleteCalls, List.filterMap_cons, List.map_cons] at ih ⊢
    exact ih

theorem deleteCalls_hpost_map (l : List Nat) :
    deleteCalls (l.map Ev3.hpost) = [] := by
  induction l with
  | nil => rfl
  | cons x xs ih =>
    simp only [deleteCalls, List.filterMap_cons, List.map_cons] at ih ⊢
    exact ih

theorem deleteCalls_modelDelete (r : DeleteHooks) (ks : List KeyM) :
    deleteCalls (modelDelete r ks) = [ks] := by
  rw [modelDelete, deleteCalls_append, deleteCalls_append, execPreEv,
    execPostEv, deleteCalls_hpre_map, deleteCalls_hpost_map]
  rfl

theorem countP_modelDelete_pre (r : DeleteHooks) (ks : List KeyM) :
    (modelDelete r ks).countP isHpre = (r.presD.getD []).length := by
  simp [modelDelete, execPreEv, execPostEv, isHpre, Function.comp_def]

theorem countP_modelDelete_post (r : DeleteHooks) (ks : List KeyM) :
    (modelDelete r ks).countP isHpost = (r.postsD.getD []).length := by
  simp [modelDelete, execPreEv, execPostEv, isHpost, Function.comp_def]

/-- C3: with no registered pre/post delete hook, `deleteAll` issues exactly
one batch backend delete carrying all matched keys; with any delete hook
registered, it issues one single-key delete per entity, strictly in
query-result order, and the registered pre/post hooks each run once per
entity (`N` invocations for `N` entities). -/
theorem C3_deleteAll (r : DeleteHooks) (ents : List KeyM) :
    (r.presD = none ∧ r.postsD = none →
      deleteCalls (modelDeleteAll r ents) = [ents]) ∧
    (r.presD.isSome ∨ r.postsD.isSome →
      deleteCalls (modelDeleteAll r ents) = ents.map (fun k => [k]) ∧
      (modelDeleteAll r ents).countP isHpre =
        ents.length * (r.presD.getD []).length ∧
      (modelDeleteAll r ents).countP isHpost =
        ents.length * (r.postsD.getD []).length) := by
  constructor
  · rintro ⟨h1, h2⟩
    simp only [modelDeleteAll, h1, h2, Option.isSome_none, Bool.or_self,
      if_false, Bool.false_or]
    exact deleteCalls_modelDelete r ents
  · intro h
    have hcond : (r.presD.isSome || r.postsD.isSome) = true := by
      rcases h with h | h <;> simp [h]
    simp only [modelDeleteAll, hcond, if_true]
    refine ⟨?_, ?_, ?_⟩
    · induction ents with
      | nil => simp [deleteCalls]
      | cons e es ih =>
        simp only [List.map_cons, List.flatten_cons, deleteCalls,
          List.filterMap_append]
        rw [← deleteCalls, ← deleteCalls, ih, deleteCalls_modelDelete]
        rfl
    · induction ents with
      | nil => simp
      | cons e es ih =>
        simp only [List.map_cons, List.flatten_cons, List.countP_append, ih,
          countP_modelDelete_pre, List.length_cons]
        ring
    · induction ents with
      | nil => simp
      | cons e es ih =>
        simp only [List.map_cons, List.flatten_cons, List.countP_append, ih,
          countP_modelDelete_post, List.length_cons]
        ring

/-- C3 witness: two matched entities. With no hooks, one batch call with
both keys; with one registered post hook, two single-key calls in query
order and two hook invocations. -/
theorem C3_deleteAll_witness :
    deleteCalls (modelDeleteAll {} [⟨"U", some 1, none⟩, ⟨"U", some 2, none⟩]) =
      [[⟨"U", some 1, none⟩, ⟨"U", some 2, none⟩]] ∧
    deleteCalls (modelDeleteAll { postsD := some [9] }
        [⟨"U", some 1, none⟩, ⟨"U", some 2, none⟩]) =
      [[⟨"U", some 1, none⟩], [⟨"U", some 2, none⟩]] ∧
    (modelDeleteAll { postsD := some [9] }
        [⟨"U", some 1, none⟩, ⟨"U", some 2, none⟩]).countP isHpost = 2 := by
  have h1 := (C3_deleteAll {} [⟨"U", some 1, none⟩, ⟨"U", some 2, none⟩]).1
    ⟨rfl, rfl⟩
  have h2 := (C3_deleteAll { postsD := some [9] }
    [⟨"U", some 1, none⟩, ⟨"U", some 2, none⟩]).2 (Or.inr (by decide))
  exact ⟨h1, h2.1, h2.2.2⟩

/-! ## C6 — batch `get` with `options.preserveOrder`

Embedding of the reorder step of `Model.get` (model.js 108-134, batch
branch): `entity.sort((a, b) => id.indexOf(a.entityKey.id) - id.indexOf(b.entityKey.id))`.
`id` is the caller's identifier array as it survives `id = parseId(id)`
(model.js 87): `isFinite` applies `ToNumber`, which on an array is
`ToNumber` of its comma-joined string, so arrays of two or more
identifiers are `NaN`-converting and pass through untouched — their
elements stay the raw numbers or strings supplied. (Singleton
numeric-looking arrays are collapsed to a scalar instead; that entry path
is modelled below by `batchGetPreserveFull`, after the string-to-number
machinery it needs.) `a.entityKey.id` is the key's numeric id —
`undefined` for string-named keys — and `Array.prototype.indexOf` uses
strict equality, yielding `-1` when the element is absent.
`Array.prototype.sort` is stable (ES2019) and is modelled by a stable
insertion sort. -/

inductive JsId where
  | num (n : Int)
  | str (s : String)
  deriving DecidableEq, Repr

structure Ent6 where
  key : KeyM
  ref : Nat
  deriving DecidableEq, Repr

/-- `id.indexOf(v)` where `v` is `entityKey.id` (`none` = `undefined`). -/
def idxOfId (ids : List JsId) : Option Int → Int
  | none => -1
  | some n => if JsId.num n ∈ ids then (ids.indexOf (JsId.num n) : Int) else -1

/-- The comparator passed to `sort`. -/
def cmp6 (ids : List JsId) (a b : Ent6) : Int :=
  idxOfId ids a.key.idN - idxOfId ids b.key.idN

/-- Stable insertion of `x` after every element comparing `≤ 0` against it
(a later-arriving element lands after its ties, as in a stable sort). -/
def insLast {α : Type} (c : α → α → Int) (x : α) : List α → List α
  | [] => [x]
  | y :: ys => if c y x ≤ 0 then y :: insLast c x ys else x :: y :: ys

/-- Stable sort with a JS comparator (for a consistent comparator every
stable sort returns the same list, so insertion sort models
`Array.prototype.sort`). -/
def jsSort {α : Type} (c : α → α → Int) (l : List α) : List α :=
  l.foldl (fun acc x => insLast c x acc) []

def preserveOrderSort (ids : List JsId) (ents : List Ent6) : List Ent6 :=
  jsSort (cmp6 ids) ents

theorem insLast_perm {α : Type} (c : α → α → Int) (x : α) (l : List α) :
    List.Perm (insLast c x l) (x :: l) := by
  induction l with
  | nil => exact List.Perm.refl _
  | cons y ys ih =>
    by_cases h : c y x ≤ 0
    · simpa [insLast, h] using (ih.cons y).trans (List.Perm.swap x y ys)
    · simp [insLast, h]

theorem jsSort_foldl_perm {α : Type} (c : α → α → Int) :
    ∀ (l acc : List α),
      List.Perm (l.foldl (fun acc x => insLast c x acc) acc) (acc ++ l) := by
  intro l
  induction l with
  | nil => intro acc; simp
  | cons x xs ih =>
    intro acc
    have h1 : List.Perm (xs.foldl (fun acc x => insLast c x acc) (insLast c x acc))
        (insLast c x acc ++ xs) := ih _
    have h2 : List.Perm (insLast c x acc ++ xs) ((x :: acc) ++ xs) :=
      (insLast_perm c x acc).append_right xs
    have h3 : List.Perm (acc ++ x :: xs) (x :: (acc ++ xs)) := List.perm_middle
    exact (h1.trans h2).trans h3.symm

theorem jsSort_perm {α : Type} (c : α → α → Int) (l : List α) :
    List.Perm (jsSort c l) l := by
  simpa using jsSort_foldl_perm c l []

theorem insLast_sortedKey {α : Type} {f : α → Int} {c : α → α → Int}
    (hc : ∀ a b, c a b ≤ 0 ↔ f a ≤ f b) (x : α) (l : List α)
    (hl : l.Pairwise fun a b => f a ≤ f b) :
    (insLast c x l).Pairwise fun a b => f a ≤ f b := by
  induction l with
  | nil => simp [insLast]
  | cons y ys ih =>
    rw [List.pairwise_cons] at hl
    by_cases h : c y x ≤ 0
    · simp only [insLast, h, if_true]
      rw [List.pairwise_cons]
      refine ⟨?_, ih hl.2⟩
      intro b hb
      rcases List.mem_cons.mp ((insLast_perm c x ys).mem_iff.mp hb) with hb' | hb'
      · exact hb' ▸ (hc y x).mp h
      · exact hl.1 b hb'
    · have hxy : f x ≤ f y := by
        have := lt_of_not_le fun hle => h ((hc y x).mpr hle)
        omega
      simp only [insLast, h, if_false]
      rw [List.pairwise_cons]
      refine ⟨?_, List.pairwise_cons.mpr hl⟩
      intro b hb
      rcases List.mem_cons.mp hb with hb' | hb'
      · exact hb' ▸ hxy
      · exact le_trans hxy (hl.1 b hb')

theorem jsSort_sortedKey {α : Type} {f : α → Int} {c : α → α → Int}
    (hc : ∀ a b, c a b ≤ 0 ↔ f a ≤ f b) (l : List α) :
    (jsSort c l).Pairwise fun a b => f a ≤ f b := by
  suffices h : ∀ (l acc : List α), acc.Pairwise (fun a b => f a ≤ f b) →
      (l.foldl (fun acc x => insLast c x acc) acc).Pairwise fun a b => f a ≤ f b by
    exact h l [] (by simp)
  intro l
  induction l with
  | nil => intro acc hacc; simpa using hacc
  | cons x xs ih =>
    intro acc hacc
    exact ih _ (insLast_sortedKey hc x acc hacc)

/-- The identifier of an entity as the spec reads it: the key's numeric id
when present, else its string name. (Definition following the claim's
words, used to state the counterexample.) -/
def specIdOf (e : Ent6) : JsId :=
  match e.key.idN with
  | some n => .num n
  | none => .str (e.key.name.getD "")

/-- Position of an entity's identifier in the requested identifier list,
as the claim's "order their identifiers appear in the input list". -/
def specInputPos (ids : List JsId) (e : Ent6) : Nat :=
  ids.indexOf (specIdOf e)

/-- Core ordering fact about the `preserveOrder` sort: for results whose
entities all carry a numeric key id appearing (as a number) in the
identifier list, with pairwise-distinct ids, the sort permutes the results
into strictly increasing input-position order. -/
theorem preserveOrderSort_ordered (ids : List JsId) (res : List Ent6)
    (hin : ∀ e ∈ res, ∃ n, e.key.idN = some n ∧ JsId.num n ∈ ids)
    (hnd : (res.map fun e => e.key.idN).Nodup) :
    List.Perm (preserveOrderSort ids res) res ∧
    (preserveOrderSort ids res).Pairwise
      (fun a b => idxOfId ids a.key.idN < idxOfId ids b.key.idN) := by
  have hperm : List.Perm (preserveOrderSort ids res) res := jsSort_perm _ res
  have hc : ∀ a b : Ent6, cmp6 ids a b ≤ 0 ↔
      idxOfId ids a.key.idN ≤ idxOfId ids b.key.idN := by
    intro a b
    simp [cmp6, sub_nonpos]
  have hle : (preserveOrderSort ids res).Pairwise
      (fun a b => idxOfId ids a.key.idN ≤ idxOfId ids b.key.idN) :=
    jsSort_sortedKey hc res
  have hne' : (preserveOrderSort ids res).Pairwise
      (fun a b => idxOfId ids a.key.idN ≠ idxOfId ids b.key.idN) := by
    have hndp : (preserveOrderSort ids res).Pairwise
        (fun a b => a.key.idN ≠ b.key.idN) := by
      have h1 : res.Pairwise (fun a b => a.key.idN ≠ b.key.idN) :=
        List.pairwise_map.mp hnd
      refine (List.Perm.pairwise_iff ?_ hperm).mpr h1
      intro x y hxy
      exact Ne.symm hxy
    refine hndp.imp_of_mem ?_
    intro a b ha hb hab
    have ha' := hin a ((hperm.mem_iff).mp ha)
    have hb' := hin b ((hperm.mem_iff).mp hb)
    obtain ⟨na, hna, hina⟩ := ha'
    obtain ⟨nb, hnb, hinb⟩ := hb'
    intro hEq
    apply hab
    rw [hna, hnb] at hEq ⊢
    simp only [idxOfId, hina, hinb, if_true] at hEq
    have : ids.indexOf (JsId.num na) = ids.indexOf (JsId.num nb) := by
      exact_mod_cast hEq
    have := (List.indexOf_inj hina hinb).mp this
    simp at this
    simp [this]
  refine ⟨hperm, ?_⟩
  refine (hle.and hne').imp ?_
  intro a b hab
  exact lt_of_le_of_ne hab.1 hab.2

/-! ## C1 / C2 — `Model.update` (non-replace, no caller transaction)

Embedding of `Model.update` (model.js 141-252). The flow opens a
transaction, runs it, fetches the entity by key inside the transaction
(`getInTransaction`), and joins through `done` / `onTransaction`:
`done(err)` commits when `err` is falsy and reports otherwise;
`onTransaction(te)` calls `cb(te || error)` when either is truthy, else
succeeds. Promise resolution values of the backend `run` / `get` /
`rollback` / `commit` calls are parameters (§6 treats the backend as an
opaque collaborator whose write calls resolve with no value). Note that
`transaction.commit().then(onTransaction)` installs no rejection handler:
a rejected commit leaves the caller waiting forever (`pending`). -/

/-- npm `extend(false, target, src)` non-deep merge: own enumerable
properties of `src` are copied into `target` in order; `undefined` values
are skipped (`typeof copy !== 'undefined'` guard). -/
def jsExtendShallow (target : ObjL) (src : List (String × JsVal)) : ObjL :=
  src.foldl (fun t p => if p.2 = .vundef then t else setL t p.1 p.2) target

/-- The entity actually saved by `getInTransaction.onEntity`. The inner
callback is declared `function onEntity(data)`, shadowing `update`'s
`data` parameter (the caller's new data), so `extend(false, entity, data)`
merges the fetch-result ARRAY over its own first element. The array's own
enumerable properties are its indices; index `0` holds `entity` itself and
is skipped by extend's `target === copy` guard, and indices `1..` (absent
here, since `transaction.get(key)` yields at most one entity) would copy
references to the other result objects. The caller's new data is never
merged. -/
def codeMergedEntity (fetch : List ObjL) : ObjL :=
  match fetch with
  | [] => []
  | e :: rest =>
    jsExtendShallow e
      ((List.range rest.length).map fun i => (toString (i + 1), JsVal.vobj (i + 1)))

/-- The merge the specification describes: `newData` shallow-merged over
the fetched entity (new fields win, fetched fields not present in
`newData` survive). -/
def specMergedEntity (fetched newData : ObjL) : ObjL :=
  jsExtendShallow fetched newData

/-- Backend behaviour parameters for one `update` run: promise outcomes of
`transaction.run()`, `transaction.get(key)`, the (hook-wrapped) entity
save, and the resolution values handed to `.then` by `rollback()` and
`commit()`. -/
structure TxB where
  runRes : Except JsVal Unit
  fetchRes : Except JsVal (List ObjL)
  saveRes : Except JsVal Unit
  rollbackRes : JsVal
  commitRes : Except JsVal JsVal
  deriving Repr

inductive Ev2 where
  | erun
  | eget
  | esave (data : ObjL)
  | erollback
  | ecommit
  deriving DecidableEq, Repr

inductive UpdErr where
  | notFound (msg : String)
  | backend (v : JsVal)
  deriving DecidableEq, Repr

inductive UpdOut where
  | pending
  | failed (e : UpdErr)
  | okOut (ent : ObjL)
  deriving DecidableEq, Repr

/-- `transaction.commit().then(onTransaction)` followed by
`onTransaction(commitValue)`; no rejection handler, so a rejected commit
never reaches the callback. -/
def commitJoin (b : TxB) (errVar : Option UpdErr) (okEnt : Option ObjL)
    (tr : List Ev2) : UpdOut × List Ev2 :=
  match b.commitRes with
  | .error _ => (.pending, tr ++ [.ecommit])
  | .ok cv =>
    if truthyJ cv then (.failed (.backend cv), tr ++ [.ecommit])
    else
      match errVar with
      | some e => (.failed e, tr ++ [.ecommit])
      | none => (.okOut (okEnt.getD []), tr ++ [.ecommit])

/-- The `done` callback built in `update` when no transaction was
supplied: `if (err) onTransaction(err) else transaction.commit().then(onTransaction)`,
with `onTransaction` reporting `transactionError || error`. -/
def doneJoin (b : TxB) (doneArg : JsVal) (errVar : Option UpdErr)
    (okEnt : Option ObjL) (tr : List Ev2) : UpdOut × List Ev2 :=
  if truthyJ doneArg then (.failed (.backend doneArg), tr)
  else commitJoin b errVar okEnt tr

def updateNotFoundMsg (id : Int) : String :=
  "Entity \x7b" ++ toString id ++ "\x7d to update not found"

/-- Non-replace `Model.update(id, newData)` with no caller-supplied
transaction. `newData` is accepted but — because of the `onEntity(data)`
shadowing — never merged in the found-entity branch. In the
entity-absent branch `error` is set to the 404 object, `rollback()` is
issued and its resolution value is handed to `done`. A save failure
(e.g. a pre-save hook rejection) triggers `transaction.rollback()` before
reporting. -/
def updateModel (b : TxB) (id : Int) (newData : ObjL) : UpdOut × List Ev2 :=
  match b.runRes with
  | .error e => (.failed (.backend e), [.erun])
  | .ok _ =>
    match b.fetchRes with
    | .error e => doneJoin b e (some (.backend e)) none [.erun, .eget]
    | .ok [] =>
        doneJoin b b.rollbackRes (some (.notFound (updateNotFoundMsg id))) none
          [.erun, .eget, .erollback]
    | .ok (ent :: rest) =>
        match b.saveRes with
        | .ok _ =>
            doneJoin b .vundef none (some (codeMergedEntity (ent :: rest)))
              [.erun, .eget, .esave (codeMergedEntity (ent :: rest))]
        | .error e =>
            doneJoin b b.rollbackRes (some (.backend e)) none
              [.erun, .eget, .erollback]

/-- C1: evaluation at the failing input. Stored entity `{name:'John'}` at
key 1, `update(1, {name:'Mick'})`: the run succeeds but saves and returns
`{name:'John'}` — the caller's `{name:'Mick'}` is lost to the
`onEntity(data)` parameter shadowing — whereas the claimed/specified
shallow merge of the new data over the fetched entity is
`{name:'Mick'}`. -/
theorem C1_update_merge_bug :
    (updateModel ⟨.ok (), .ok [[("name", .vstr "John")]], .ok (), .vundef,
        .ok .vundef⟩ 1 [("name", .vstr "Mick")]).1 =
      .okOut [("name", .vstr "John")] ∧
    specMergedEntity [("name", .vstr "John")] [("name", .vstr "Mick")] =
      [("name", .vstr "Mick")] ∧
    (updateModel ⟨.ok (), .ok [[("name", .vstr "John")]], .ok (), .vundef,
        .ok .vundef⟩ 1 [("name", .vstr "Mick")]).1 ≠
      .okOut (specMergedEntity [("name", .vstr "John")] [("name", .vstr "Mick")]) := by
  refine ⟨rfl, rfl, ?_⟩
  decide

/-- C2: non-replace `update` against a backend with no entity at the key:
the operation fails with the 404 `Entity {id} to update not found` error,
a rollback is issued on the transaction, and no save is ever issued
(under the §6 backend contract that `rollback()` and `commit()` resolve
with no value). -/
theorem C2_update_notFound (b : TxB) (id : Int) (nd : ObjL)
    (hrun : b.runRes = .ok ()) (hfetch : b.fetchRes = .ok [])
    (hrb : b.rollbackRes = .vundef) (hcm : b.commitRes = .ok .vundef) :
    (updateModel b id nd).1 = .failed (.notFound (updateNotFoundMsg id)) ∧
    Ev2.erollback ∈ (updateModel b id nd).2 ∧
    ∀ d, Ev2.esave d ∉ (updateModel b id nd).2 := by
  obtain ⟨br, bf, bs, brb, bc⟩ := b
  simp only at hrun hfetch hrb hcm
  subst hrun hfetch hrb hcm
  refine ⟨rfl, ?_, ?_⟩
  · simp [updateModel, doneJoin, commitJoin, truthyJ]
  · intro d
    simp [updateModel, doneJoin, commitJoin, truthyJ]

/-- C2 witness: the spec scenario `update(id=5, {x:1})` with key 5 absent. -/
theorem C2_update_notFound_witness :
    (updateModel ⟨.ok (), .ok [], .ok (), .vundef, .ok .vundef⟩ 5
        [("x", .vnum 1)]).1 =
      .failed (.notFound (updateNotFoundMsg 5)) ∧
    Ev2.erollback ∈ (updateModel ⟨.ok (), .ok [], .ok (), .vundef,
        .ok .vundef⟩ 5 [("x", .vnum 1)]).2 ∧
    ∀ d, Ev2.esave d ∉ (updateModel ⟨.ok (), .ok [], .ok (), .vundef,
        .ok .vundef⟩ 5 [("x", .vnum 1)]).2 :=
  C2_update_notFound ⟨.ok (), .ok [], .ok (), .vundef, .ok .vundef⟩ 5
    [("x", .vnum 1)] rfl rfl rfl rfl

/-! ## C4 — `parseId` and `Model.key` path building

`parseId(id)` (model.js 984-986) is
`isFinite(id) ? parseInt(id, 10) : id`. For a string identifier,
`isFinite` applies JS `ToNumber` (the string-numeric-literal grammar:
optional whitespace, optional sign, decimal literal with fraction and
exponent, `Infinity`, or an unsigned `0x`/`0o`/`0b` literal; empty or
all-whitespace is `0`) and checks the result is neither `NaN` nor
infinite; `parseInt(s, 10)` skips leading whitespace, an optional sign,
and reads the leading run of decimal digits (`NaN` when there is none),
ignoring everything after it. -/

/-! ## C4 — `parseId` and `Model.key` path building

`parseId(id)` (model.js 984-986) is
`isFinite(id) ? parseInt(id, 10) : id`. For a string identifier,
`isFinite` applies JS `ToNumber` (the string-numeric-literal grammar:
optional whitespace, optional sign, decimal literal with fraction and
exponent, `Infinity`, or an unsigned `0x`/`0o`/`0b` literal; empty or
all-whitespace is `0`) and checks the result is neither `NaN` nor
infinite; `parseInt(s, 10)` skips leading whitespace, an optional sign,
and reads the leading run of decimal digits (`NaN` when there is none),
ignoring everything after it.

Finite values are kept as unreduced fractions `QRep` (numerator /
power-of-ten denominator) — the exact rational a decimal literal denotes.
Two IEEE-754 double effects that change the OUTCOME of `parseId` are
modelled exactly: overflow to `Infinity` (`ToNumber` yields `Infinity`
iff the exact value reaches `2^1024 - 2^970`, the round-to-nearest-even
boundary, so e.g. a 310-digit string fails `isFinite` and is kept
verbatim) and `parseInt`'s rounding of digit runs to the nearest double
(`roundToDouble`, exact below `2^53`). Rounding of finite non-integer
mantissas (e.g. that `Number('0.1')` is not exactly 1/10) and subnormal
underflow to `0` are not modelled; no theorem below evaluates a value in
the range where they differ. -/

def digToNat (c : Char) : Nat := c.toNat - 48

def natOfDigits (l : List Char) : Nat :=
  l.foldl (fun a c => 10 * a + digToNat c) 0

def infChars : List Char := "Infinity".data

/-- An exact (unreduced) fraction `num / den`. -/
structure QRep where
  num : Int
  den : Nat
  deriving DecidableEq, Repr

/-- The rational value a `QRep` denotes. -/
def QRep.val (m : QRep) : ℚ := (m.num : ℚ) / (m.den : ℚ)

/-- Whether a `QRep` denotes a whole number. -/
def QRep.isWhole (m : QRep) : Bool := m.num % (m.den : Int) = 0

/-- Whether the exact value `|num| / den` rounds to `Infinity` as an
IEEE-754 double: round-to-nearest-even overflows iff the magnitude is at
least `2^1024 - 2^970` (the halfway point above the largest finite
double, which ties to `2^1024`). -/
def dblOverflow (m : QRep) : Bool :=
  decide ((2 ^ 1024 - 2 ^ 970) * m.den ≤ m.num.natAbs)

/-- `⌊log2 n⌋` by fuelled halving (`n` is always enough fuel). -/
def log2Go : Nat → Nat → Nat
  | 0, _ => 0
  | fuel + 1, n => if n ≤ 1 then 0 else log2Go fuel (n / 2) + 1

def bitLen (n : Nat) : Nat := log2Go n n + 1

/-- Round a natural number to the nearest IEEE-754 double
(53-bit significand, ties to even); exact below `2^53`. -/
def roundToDouble (n : Nat) : Nat :=
  if n < 2 ^ 53 then n
  else
    let k := bitLen n - 53
    let q := n / 2 ^ k
    let r := n % 2 ^ k
    let half := 2 ^ (k - 1)
    let q' := if half < r ∨ (r = half ∧ q % 2 = 1) then q + 1 else q
    q' * 2 ^ k

theorem roundToDouble_small {n : Nat} (h : n < 2 ^ 53) :
    roundToDouble n = n := by
  unfold roundToDouble
  rw [if_pos h]

theorem dblOverflow_small {n : Nat} (h : n < 2 ^ 53) :
    dblOverflow ⟨(n : Int), 1⟩ = false := by
  have h1 : (2:Nat) ^ 970 ≤ 2 ^ 1023 :=
    Nat.pow_le_pow_right (by norm_num) (by norm_num)
  have h2 : (2:Nat) ^ 53 ≤ 2 ^ 1023 :=
    Nat.pow_le_pow_right (by norm_num) (by norm_num)
  have h3 : (2:Nat) ^ 1024 = 2 ^ 1023 + 2 ^ 1023 := by
    rw [pow_succ]
    ring
  apply decide_eq_false
  intro hcontra
  rw [Int.natAbs_ofNat] at hcontra
  have hcontra2 : (2 ^ 1024 - 2 ^ 970) * 1 ≤ n := hcontra
  omega

def allDigitsVal (l : List Char) : Option Nat :=
  if l ≠ [] ∧ l.all Char.isDigit then some (natOfDigits l) else none

/-- The `ExponentPart?` tail of a decimal literal: empty, or
`e`/`E` followed by an optionally signed digit run consuming the rest. -/
def parseExpTail (l : List Char) : Option Int :=
  if l = [] then some 0
  else if l.head? = some 'e' ∨ l.head? = some 'E' then
    let r := l.tail
    if r.head? = some '+' then (allDigitsVal r.tail).map fun n => (n : Int)
    else if r.head? = some '-' then (allDigitsVal r.tail).map fun n => -(n : Int)
    else (allDigitsVal r).map fun n => (n : Int)
  else none

def applyExp (m : QRep) (e : Int) : QRep :=
  if 0 ≤ e then ⟨m.num * 10 ^ e.toNat, m.den⟩
  else ⟨m.num, m.den * 10 ^ (-e).toNat⟩

/-- `StrUnsignedDecimalLiteral` (without `Infinity`), consuming the whole
input: `Digits ['.' Digits?] ExponentPart?` or `'.' Digits ExponentPart?`. -/
def parseDecimalAll (l : List Char) : Option QRep :=
  let ip := l.takeWhile Char.isDigit
  let r1 := l.dropWhile Char.isDigit
  if r1.head? = some '.' then
    let r2 := r1.tail
    let fp := r2.takeWhile Char.isDigit
    let r3 := r2.dropWhile Char.isDigit
    if ip = [] ∧ fp = [] then none
    else (parseExpTail r3).map fun e =>
      applyExp ⟨natOfDigits ip * 10 ^ fp.length + natOfDigits fp, 10 ^ fp.length⟩ e
  else
    if ip = [] then none
    else (parseExpTail r1).map fun e => applyExp ⟨(natOfDigits ip : Int), 1⟩ e

def hexDigVal (c : Char) : Option Nat :=
  if c.isDigit then some (digToNat c)
  else if 'a' ≤ c ∧ c ≤ 'f' then some (c.toNat - 87)
  else if 'A' ≤ c ∧ c ≤ 'F' then some (c.toNat - 55)
  else none

def octDigVal (c : Char) : Option Nat :=
  if '0' ≤ c ∧ c ≤ '7' then some (digToNat c) else none

def binDigVal (c : Char) : Option Nat :=
  if c = '0' ∨ c = '1' then some (digToNat c) else none

def radixVal (base : Nat) (dig : Char → Option Nat) (l : List Char) : Option Nat :=
  if l.isEmpty then none
  else l.foldl (fun acc c => acc.bind fun a => (dig c).map fun d => base * a + d) (some 0)

/-- Result of JS `ToNumber` on a string. -/
inductive NumV where
  | nan
  | inf (neg : Bool)
  | fin (m : QRep)
  deriving DecidableEq, Repr

/-- Classify an exact parsed value as a finite double or `Infinity`. -/
def finOrInf (m : QRep) : NumV :=
  if dblOverflow m then .inf (decide (m.num < 0)) else .fin m

def decOrNaN (l : List Char) : NumV :=
  (parseDecimalAll l).elim .nan finOrInf

/-- After a `+`/`-` sign only `Infinity` or a decimal literal may follow
(no non-decimal integer literal). -/
def signedNum (neg : Bool) (r : List Char) : NumV :=
  if r = infChars then .inf neg
  else (parseDecimalAll r).elim .nan fun m =>
    finOrInf (if neg then ⟨-m.num, m.den⟩ else m)

def radixOrNaN (base : Nat) (dig : Char → Option Nat) (l : List Char) : NumV :=
  (radixVal base dig l).elim .nan fun n => finOrInf ⟨(n : Int), 1⟩

def unsignedNum (t : List Char) : NumV :=
  if t = infChars then .inf false
  else if t.head? = some '0' ∧ (t.tail.head? = some 'x' ∨ t.tail.head? = some 'X') then
    radixOrNaN 16 hexDigVal (t.drop 2)
  else if t.head? = some '0' ∧ (t.tail.head? = some 'o' ∨ t.tail.head? = some 'O') then
    radixOrNaN 8 octDigVal (t.drop 2)
  else if t.head? = some '0' ∧ (t.tail.head? = some 'b' ∨ t.tail.head? = some 'B') then
    radixOrNaN 2 binDigVal (t.drop 2)
  else decOrNaN t

def strNumC (t : List Char) : NumV :=
  if t = [] then .fin ⟨0, 1⟩
  else if t.head? = some '+' then signedNum false t.tail
  else if t.head? = some '-' then signedNum true t.tail
  else unsignedNum t

/-- JS `ToNumber` on a string (`Number(s)`), as used by `isFinite(s)`. -/
def strNum (s : String) : NumV := strNumC (trimBothC s.data)

/-- `parseInt`'s value from a leading digit run (sign already consumed):
`NaN` when there is no digit; otherwise the exact integer read from the
digits, rounded to the nearest double (ties to even) and overflowing to
`±Infinity` past the double range, as the returned Number value is. -/
def jsParseIntLeadN (neg : Bool) (l : List Char) : NumV :=
  if l.takeWhile Char.isDigit = [] then .nan
  else if dblOverflow ⟨(natOfDigits (l.takeWhile Char.isDigit) : Int), 1⟩ then .inf neg
  else if neg then
    .fin ⟨-(roundToDouble (natOfDigits (l.takeWhile Char.isDigit)) : Int), 1⟩
  else
    .fin ⟨(roundToDouble (natOfDigits (l.takeWhile Char.isDigit)) : Int), 1⟩

/-- `parseInt(s, 10)` as a Number value (`.nan` = `NaN`). -/
def jsParseInt10 (s : String) : NumV :=
  if (trimLeftC s.data).head? = some '+' then
    jsParseIntLeadN false (trimLeftC s.data).tail
  else if (trimLeftC s.data).head? = some '-' then
    jsParseIntLeadN true (trimLeftC s.data).tail
  else jsParseIntLeadN false (trimLeftC s.data)

/-- A parsed identifier: numeric (a double whose value is this integer),
string, the `NaN` produced when `isFinite` holds but `parseInt` finds no
digits (e.g. the empty string), or the `±Infinity` produced when the
digit run overflows the double range. -/
inductive IdV where
  | num (n : Int)
  | str (s : String)
  | nanId
  | infId (neg : Bool)
  deriving DecidableEq, Repr

/-- `parseId` on a string identifier:
`isFinite(id) ? parseInt(id, 10) : id`. -/
def parseIdStr (s : String) : IdV :=
  match strNum s with
  | .fin _ =>
    match jsParseInt10 s with
    | .fin m => .num m.num
    | .inf neg => .infId neg
    | .nan => .nanId
  | _ => .str s

inductive PathElem where
  | kindE (s : String)
  | idE (v : IdV)
  deriving DecidableEq, Repr

/-- `getPath(id, ancestors)` of `Model.key` (model.js 625-638):
`[entityKind]`, the parsed identifier appended when one is given
(`undefined`/`null` yield the partial path), the ancestor path prepended
verbatim when supplied. -/
def getPathM (kind : String) (id : Option String)
    (anc : Option (List PathElem)) : List PathElem :=
  let p := [PathElem.kindE kind] ++
    match id with
    | none => []
    | some s => [PathElem.idE (parseIdStr s)]
  match anc with
  | some a => a ++ p
  | none => p

/-- The claim's phrase "a string that parses as a whole number":
its JS numeric conversion is a finite whole number. (Definition following
the spec's words, for stating the counterexample.) -/
def specParsesAsWholeNumber (s : String) : Bool :=
  match strNum s with
  | .fin m => m.isWhole
  | _ => false

/-- `'1'` followed by 309 zeros: a decimal-digit string whose value
(`10^309`) exceeds the largest finite double, so `Number` converts it to
`Infinity`, `isFinite` is false, and `parseId` keeps it verbatim. -/
def bigNumStr : String := ⟨'1' :: List.replicate 309 '0'⟩

/-- C4 counterexample: `'1.5'` does not parse as a whole number
(`Number('1.5') = 15/10`), so the claim requires it to be kept verbatim as
a string identifier — but `isFinite('1.5')` holds, so the code coerces it
through `parseInt('1.5', 10)` to the numeric identifier `1`. -/
theorem C4_counterexample :
    specParsesAsWholeNumber "1.5" = false ∧
    parseIdStr "1.5" = .num 1 ∧
    parseIdStr "1.5" ≠ .str "1.5" := by
  refine ⟨?_, ?_, ?_⟩ <;> decide

theorem digit_not_ws (c : Char) (h : c.isDigit = true) : jsWS c = false := by
  by_contra hws
  rw [Bool.not_eq_false] at hws
  have hmem : c ∈ jsWsChars := by simpa [jsWS] using hws
  fin_cases hmem <;> exact absurd h (by decide)

theorem trimLeftC_eq_self (l : List Char) (h : ∀ c ∈ l, jsWS c = false) :
    trimLeftC l = l := by
  cases l with
  | nil => rfl
  | cons c r => simp [trimLeftC, h c (List.mem_cons_self c r)]

theorem trimBothC_eq_self (l : List Char) (h : ∀ c ∈ l, jsWS c = false) :
    trimBothC l = l := by
  unfold trimBothC
  rw [trimLeftC_eq_self l.reverse fun c hc => h c (List.mem_reverse.mp hc),
    List.reverse_reverse, trimLeftC_eq_self l h]

theorem takeWhile_eq_self_of_all {p : Char → Bool} (l : List Char)
    (h : l.all p = true) : l.takeWhile p = l := by
  induction l with
  | nil => rfl
  | cons c r ih =>
    rw [List.all_cons, Bool.and_eq_true] at h
    simp [List.takeWhile_cons, h.1, ih h.2]

theorem dropWhile_eq_nil_of_all {p : Char → Bool} (l : List Char)
    (h : l.all p = true) : l.dropWhile p = [] := by
  induction l with
  | nil => rfl
  | cons c r ih =>
    rw [List.all_cons, Bool.and_eq_true] at h
    simp [List.dropWhile_cons, h.1, ih h.2]

theorem parseDecimalAll_digits (l : List Char) (hne : l ≠ [])
    (h : l.all Char.isDigit = true) :
    parseDecimalAll l = some ⟨(natOfDigits l : Int), 1⟩ := by
  unfold parseDecimalAll
  rw [takeWhile_eq_self_of_all l h, dropWhile_eq_nil_of_all l h]
  simp [hne, parseExpTail, applyExp]

theorem head_digit_ne (l : List Char) (hdig : ∀ c ∈ l, c.isDigit = true)
    (c : Char) (hc : c.isDigit = false) : l.head? ≠ some c := by
  cases l with
  | nil => simp
  | cons c0 r =>
    simp only [List.head?_cons, ne_eq, Option.some.injEq]
    intro hEq
    have hd := hdig c0 (List.mem_cons_self c0 r)
    rw [hEq, hc] at hd
    cases hd

theorem tail_head_digit (l : List Char) (hdig : ∀ c ∈ l, c.isDigit = true)
    (c : Char) (hc : l.tail.head? = some c) : c.isDigit = true := by
  cases l with
  | nil => simp at hc
  | cons c0 r =>
    cases r with
    | nil => simp at hc
    | cons c1 r1 =>
      simp only [List.tail_cons, List.head?_cons, Option.some.injEq] at hc
      subst hc
      exact hdig c1 (List.mem_cons_of_mem _ (List.mem_cons_self _ _))

theorem strNum_digits (s : String) (hne : s.data ≠ [])
    (h : s.data.all Char.isDigit = true) :
    strNum s = finOrInf ⟨(natOfDigits s.data : Int), 1⟩ := by
  have hdig : ∀ c ∈ s.data, c.isDigit = true := List.all_eq_true.mp h
  have hd0 : s.data.head? ≠ some '+' := head_digit_ne s.data hdig '+' (by decide)
  have hd1 : s.data.head? ≠ some '-' := head_digit_ne s.data hdig '-' (by decide)
  have hinf : s.data ≠ infChars := by
    intro hEq
    rw [hEq] at h
    exact absurd h (by decide)
  have hnx : ¬(s.data.head? = some '0' ∧
      (s.data.tail.head? = some 'x' ∨ s.data.tail.head? = some 'X')) := by
    rintro ⟨-, hx | hx⟩ <;>
      exact absurd (tail_head_digit s.data hdig _ hx) (by decide)
  have hno : ¬(s.data.head? = some '0' ∧
      (s.data.tail.head? = some 'o' ∨ s.data.tail.head? = some 'O')) := by
    rintro ⟨-, hx | hx⟩ <;>
      exact absurd (tail_head_digit s.data hdig _ hx) (by decide)
  have hnb : ¬(s.data.head? = some '0' ∧
      (s.data.tail.head? = some 'b' ∨ s.data.tail.head? = some 'B')) := by
    rintro ⟨-, hx | hx⟩ <;>
      exact absurd (tail_head_digit s.data hdig _ hx) (by decide)
  unfold strNum
  rw [trimBothC_eq_self s.data fun c hc => digit_not_ws c (hdig c hc)]
  unfold strNumC
  rw [if_neg hne, if_neg hd0, if_neg hd1]
  unfold unsignedNum
  rw [if_neg hinf, if_neg hnx, if_neg hno, if_neg hnb]
  unfold decOrNaN
  rw [parseDecimalAll_digits s.data hne h]
  rfl

theorem strNum_digits_small (s : String) (hne : s.data ≠ [])
    (h : s.data.all Char.isDigit = true)
    (hlt : natOfDigits s.data < 2 ^ 53) :
    strNum s = .fin ⟨(natOfDigits s.data : Int), 1⟩ := by
  rw [strNum_digits s hne h]
  unfold finOrInf
  rw [dblOverflow_small hlt, if_neg (by simp)]

theorem jsParseInt10_digits (s : String) (hne : s.data ≠ [])
    (h : s.data.all Char.isDigit = true)
    (hlt : natOfDigits s.data < 2 ^ 53) :
    jsParseInt10 s = .fin ⟨(natOfDigits s.data : Int), 1⟩ := by
  have hdig : ∀ c ∈ s.data, c.isDigit = true := List.all_eq_true.mp h
  have htrim : trimLeftC s.data = s.data :=
    trimLeftC_eq_self s.data fun c hc => digit_not_ws c (hdig c hc)
  have hd0 : s.data.head? ≠ some '+' := head_digit_ne s.data hdig '+' (by decide)
  have hd1 : s.data.head? ≠ some '-' := head_digit_ne s.data hdig '-' (by decide)
  unfold jsParseInt10
  rw [htrim]
  rw [if_neg hd0, if_neg hd1]
  unfold jsParseIntLeadN
  rw [takeWhile_eq_self_of_all _ h]
  rw [if_neg hne, if_neg (by simp [dblOverflow_small hlt]), if_neg (by simp)]
  rw [roundToDouble_small hlt]

/-- C4 (amended): a nonempty all-decimal-digit string identifier whose
value is below `2^53` is coerced to the equal numeric identifier; a
string whose JS numeric conversion is `NaN` (or, generally, not finite —
e.g. `'1'` followed by 309 zeros converts to `Infinity`) is kept
verbatim as a string identifier; any other finite-looking string goes
through `parseInt(s, 10)`, which may truncate (`'1.5' → 1`) and at or
above `2^53` rounds to the nearest representable double. An absent
identifier yields the partial path `[kind]`, and a present one the path
`ancestors ++ [kind, parseId(id)]`. -/
theorem C4_key_parseId :
    (∀ s : String, s.data ≠ [] → s.data.all Char.isDigit = true →
      natOfDigits s.data < 2 ^ 53 →
      parseIdStr s = .num ((natOfDigits s.data : Int))) ∧
    (∀ s : String, strNum s = .nan → parseIdStr s = .str s) ∧
    (∀ s : String, (∀ m, strNum s ≠ .fin m) → parseIdStr s = .str s) ∧
    parseIdStr bigNumStr = .str bigNumStr ∧
    (∀ kind : String, getPathM kind none none = [.kindE kind]) ∧
    (∀ kind s anc, getPathM kind (some s) anc =
      (anc.getD []) ++ [.kindE kind, .idE (parseIdStr s)]) := by
  refine ⟨?_, ?_, ?_, ?_, ?_, ?_⟩
  · intro s hne h hlt
    unfold parseIdStr
    rw [strNum_digits_small s hne h hlt, jsParseInt10_digits s hne h hlt]
  · intro s hnan
    unfold parseIdStr
    rw [hnan]
  · intro s hfin
    unfold parseIdStr
    cases hn : strNum s with
    | nan => rfl
    | inf neg => rfl
    | fin m => exact absurd hn (hfin m)
  · have hne : bigNumStr.data ≠ [] := by decide
    have hdig : bigNumStr.data.all Char.isDigit = true := by decide
    have h1 := strNum_digits bigNumStr hne hdig
    have h2 : finOrInf ⟨(natOfDigits bigNumStr.data : Int), 1⟩ = .inf false := by
      decide
    unfold parseIdStr
    rw [h1, h2]
  · intro kind
    rfl
  · intro kind s anc
    cases anc <;> rfl

/-- C4 witness: `'123'` coerces to the numeric identifier `123`, `'abc'`
stays the string `'abc'`, and an absent identifier yields the partial
path `[Kind]`. -/
theorem C4_key_parseId_witness :
    parseIdStr "123" = .num 123 ∧
    parseIdStr "abc" = .str "abc" ∧
    getPathM "Kind" none none = [.kindE "Kind"] := by
  have h := C4_key_parseId
  refine ⟨?_, ?_, h.2.2.2.2.1 "Kind"⟩
  · have h1 := h.1 "123" (by decide) (by decide) (by decide)
    rw [h1]
    decide
  · exact h.2.1 "abc" (by decide)

/-! ## C6 (continued) — the `parseId` entry path of a batch `get`

`Model.get` computes `multiple = is.array(id)` and only afterwards runs
`id = parseId(id)` (model.js 84-87). `parseId` is
`isFinite(id) ? parseInt(id, 10) : id`, and `isFinite` applies `ToNumber`,
which on an array is `ToNumber` of `Array.prototype.join(',')` of its
elements. An array of two or more identifiers always joins with a comma,
which no numeric literal contains, so it converts to `NaN` and passes
through `parseId` untouched. But the empty array joins to `''` (number
`0`) and a singleton `[x]` joins to `String(x)`, so an empty or
numeric-looking singleton identifier array IS finite and is collapsed by
`parseInt` to a scalar while `multiple` stays `true`. `onEntity` then
reports 404 first on a zero-length fetch result, but any returned data
reaches `entity.map` with `entity = data[0]` a single entity object,
which has no `.map` method: the call throws `TypeError` instead of
returning an ordered batch. -/

/-- `String(x)` of an identifier array element. -/
def jsIdToString : JsId → String
  | .num n => toString n
  | .str s => s

/-- `ToNumber` of an identifier array:
`Number(String(ids.join(',')))`. -/
def arrToNumber (ids : List JsId) : NumV :=
  strNum (String.intercalate "," (ids.map jsIdToString))

/-- `isFinite(ids)` for an identifier array. -/
def isFiniteArr (ids : List JsId) : Bool :=
  match arrToNumber ids with
  | .fin _ => true
  | _ => false

/-- Outcome of the batch (`multiple`) branch of `Model.get` once the
fetch resolves. -/
inductive BatchOutcome where
  | typeError
  | err404
  | okL (ents : List Ent6)
  deriving DecidableEq, Repr

/-- The batch branch of `Model.get` with `options.preserveOrder`, from
the fetch result on (model.js 84-134). When the identifier array itself
converts to a finite number (`multiple` was computed before `parseId`
collapsed it to a scalar), a zero-length fetch result still reports 404,
but any returned data makes `entity.map` throw `TypeError`; otherwise the
entities are sorted by input position. -/
def batchGetPreserveFull (ids : List JsId) (data : List Ent6) : BatchOutcome :=
  if isFiniteArr ids then
    if data = [] then .err404 else .typeError
  else
    if data = [] then .err404 else .okL (preserveOrderSort ids data)

/-- C6 (amended): for a batch `get` with `options.preserveOrder` whose
identifier array does not itself convert to a finite number (the normal
case: two or more identifiers, or a single non-numeric string), and whose
nonempty fetch result carries pairwise-distinct numeric key ids each
appearing (as a number) in the input list, the outcome is the backend
entities permuted into strictly increasing input-position order. When the
identifier array does convert to a finite number (empty, or a
numeric-looking singleton), `parseId` collapses it to a scalar while
`multiple` stays `true`, and any nonempty fetch result throws `TypeError`
at `entity.map` instead of returning an ordered batch. -/
theorem C6_preserveOrder (ids : List JsId) (res : List Ent6)
    (hfin : isFiniteArr ids = false) (hne : res ≠ [])
    (hin : ∀ e ∈ res, ∃ n, e.key.idN = some n ∧ JsId.num n ∈ ids)
    (hnd : (res.map fun e => e.key.idN).Nodup) :
    (batchGetPreserveFull ids res = .okL (preserveOrderSort ids res) ∧
      List.Perm (preserveOrderSort ids res) res ∧
      (preserveOrderSort ids res).Pairwise
        (fun a b => idxOfId ids a.key.idN < idxOfId ids b.key.idN)) ∧
    (∀ (ids2 : List JsId) (e : Ent6) (rest : List Ent6),
      isFiniteArr ids2 = true →
      batchGetPreserveFull ids2 (e :: rest) = .typeError) := by
  constructor
  · have hord := preserveOrderSort_ordered ids res hin hnd
    refine ⟨?_, hord.1, hord.2⟩
    unfold batchGetPreserveFull
    rw [hfin]
    simp [hne]
  · intro ids2 e rest hfin2
    unfold batchGetPreserveFull
    rw [hfin2]
    simp

/-- C6 counterexample: (a) for string identifiers the comparator reads
`entityKey.id`, which is `undefined` on named keys, so both `indexOf`
calls return `-1`, every comparison ties, and the backend order
`[x, abc]` is returned unchanged although the claim demands the input
order `[abc, x]`; (b) the singleton numeric-looking identifier array
`[5]` is finite (`ToNumber` of its join `'5'`), `parseId` collapses it to
the scalar `5` while `multiple` stays `true`, and a nonempty fetch result
ends in `TypeError` rather than any reordered batch. -/
theorem C6_counterexample :
    (batchGetPreserveFull [.str "abc", .str "x"]
        [⟨⟨"K", none, some "x"⟩, 0⟩, ⟨⟨"K", none, some "abc"⟩, 1⟩] =
      .okL [⟨⟨"K", none, some "x"⟩, 0⟩, ⟨⟨"K", none, some "abc"⟩, 1⟩] ∧
      specInputPos [.str "abc", .str "x"] ⟨⟨"K", none, some "x"⟩, 0⟩ = 1 ∧
      specInputPos [.str "abc", .str "x"] ⟨⟨"K", none, some "abc"⟩, 1⟩ = 0) ∧
    (isFiniteArr [.num 5] = true ∧
      batchGetPreserveFull [.num 5] [⟨⟨"K", some 5, none⟩, 0⟩] = .typeError) := by
  refine ⟨⟨?_, ?_, ?_⟩, ?_, ?_⟩ <;> decide

/-- C6 witness: requested ids `[3, 1]` with backend order `[id 1, id 3]`
are returned sorted — a permutation of the backend result in strictly
increasing input position — and the coerced singleton `[5]` with a
nonempty fetch result ends in `TypeError`. -/
theorem C6_preserveOrder_witness :
    batchGetPreserveFull [.num 3, .num 1]
        [⟨⟨"K", some 1, none⟩, 0⟩, ⟨⟨"K", some 3, none⟩, 1⟩] =
      .okL (preserveOrderSort [.num 3, .num 1]
        [⟨⟨"K", some 1, none⟩, 0⟩, ⟨⟨"K", some 3, none⟩, 1⟩]) ∧
    List.Perm
      (preserveOrderSort [.num 3, .num 1]
        [⟨⟨"K", some 1, none⟩, 0⟩, ⟨⟨"K", some 3, none⟩, 1⟩])
      [⟨⟨"K", some 1, none⟩, 0⟩, ⟨⟨"K", some 3, none⟩, 1⟩] ∧
    (preserveOrderSort [.num 3, .num 1]
        [⟨⟨"K", some 1, none⟩, 0⟩, ⟨⟨"K", some 3, none⟩, 1⟩]).Pairwise
      (fun a b => idxOfId [.num 3, .num 1] a.key.idN <
        idxOfId [.num 3, .num 1] b.key.idN) ∧
    batchGetPreserveFull [.num 5] [⟨⟨"K", some 5, none⟩, 0⟩] = .typeError := by
  have hin : ∀ e ∈ ([⟨⟨"K", some 1, none⟩, 0⟩,
      ⟨⟨"K", some 3, none⟩, 1⟩] : List Ent6),
      ∃ n, e.key.idN = some n ∧ JsId.num n ∈ [JsId.num 3, JsId.num 1] := by
    intro e he
    rcases List.mem_cons.mp he with rfl | he
    · exact ⟨1, rfl, by decide⟩
    rcases List.mem_cons.mp he with rfl | he
    · exact ⟨3, rfl, by decide⟩
    · cases he
  have h := C6_preserveOrder [.num 3, .num 1]
      [⟨⟨"K", some 1, none⟩, 0⟩, ⟨⟨"K", some 3, none⟩, 1⟩]
      (by decide) (by decide) hin (by decide)
  exact ⟨h.1.1, h.1.2.1, h.1.2.2,
    h.2 [.num 5] ⟨⟨"K", some 5, none⟩, 0⟩ [] (by decide)⟩

/-! ## C5 — `Entity.prototype.validate`

Embedding of `validate()` (model.js 801-950). The loop walks
`Object.keys(this.entityData)` in insertion order, mutating the data bag
(virtual keys are deleted) and an `errors` object where later checks for
the same key overwrite earlier entries (`errors[k] = …`). The external
`validator` library (named format predicates) and `moment` validity are
parameters (`ExtLib`). -/

structure SchemaV where
  paths : List (String × FieldDesc)
  virtuals : List String
  explicitOnly : Option Bool := none

structure ExtLib where
  validatorFn : String → JsVal → Bool
  momentValid : String → Bool

inductive ErrE where
  | validation (msg : String)
  | validator (errorName : Option String) (msg : String)
  | generic (msg : String)
  | dtObj (msg : String)
  deriving DecidableEq, Repr

abbrev ErrL := List (String × ErrE)

/-- `v === null || v === undefined || typeof v === 'string' && v.trim().length === 0` -/
def valueIsEmptyB (v : JsVal) : Bool :=
  v == .vnull || v == .vundef ||
  (match v with
   | .vstr s => jsTrim s == ""
   | _ => false)

def trimIfStr : JsVal → JsVal
  | .vstr s => .vstr (jsTrim s)
  | v => v

/-- `isInt(n)`: `Number(n) === n && n % 1 === 0`. -/
def isIntV : JsVal → Bool
  | .vnum q => q.den = 1
  | _ => false

/-- `isFloat(n)`: `Number(n) === n && n % 1 !== 0`. -/
def isFloatV : JsVal → Bool
  | .vnum q => q.den ≠ 1
  | _ => false

/-- Whether the unanchored regex
`\d{4}-\d{2}-\d{2}([ ,T])?(\d{2}:\d{2}:\d{2})?(\.\d{1,3})?` matches: every
group after the date is optional, so a match exists iff the string
contains `\d{4}-\d{2}-\d{2}` somewhere. -/
def datePatAt : List Char → Bool
  | d1 :: d2 :: d3 :: d4 :: '-' :: m1 :: m2 :: '-' :: a1 :: a2 :: _ =>
    d1.isDigit && d2.isDigit && d3.isDigit && d4.isDigit &&
    m1.isDigit && m2.isDigit && a1.isDigit && a2.isDigit
  | _ => false

def hasDatePatL : List Char → Bool
  | [] => false
  | c :: r => datePatAt (c :: r) || hasDatePatL r

def hasDatePat (s : String) : Bool := hasDatePatL s.data

/-- `!isNaN(parseInt(value))` where `parseInt` infers the radix: after
whitespace and an optional sign, a `0x`/`0X` prefix demands a hex digit,
otherwise a decimal digit must follow. -/
def jsParseIntNoRadixIsNum (s : String) : Bool :=
  let t := trimLeftC s.data
  let core := if t.head? = some '+' ∨ t.head? = some '-' then t.tail else t
  if core.head? = some '0' ∧ (core.tail.head? = some 'x' ∨ core.tail.head? = some 'X') then
    match core.tail.tail.head? with
    | some c => (hexDigVal c).isSome
    | none => false
  else
    match core.head? with
    | some c => c.isDigit
    | none => false

/-- `isFloat(parseFloat(v)) || isInt(parseFloat(v))`, i.e.
`parseFloat(v)` is not `NaN`: after whitespace and an optional sign the
string starts with a digit, a dot followed by a digit, or `Infinity`. -/
def jsParseFloatIsNum (s : String) : Bool :=
  let t := trimLeftC s.data
  let core := if t.head? = some '+' ∨ t.head? = some '-' then t.tail else t
  (match core.head? with
   | some c =>
     c.isDigit ||
     (c == '.' &&
       (match core.tail.head? with
        | some c2 => c2.isDigit
        | none => false))
   | none => false) ||
  core.take 8 = infChars

def isDateV : JsVal → Bool
  | .vdate _ _ => true
  | _ => false

def isArrV : JsVal → Bool
  | .varr _ => true
  | _ => false

def isBufV : JsVal → Bool
  | .vbuf _ => true
  | _ => false

def isGeoV : JsVal → Bool
  | .vgeo _ => true
  | _ => false

/-- `Array.prototype.indexOf` with strict equality. -/
def jsIndexOfAux : List JsVal → JsVal → Nat → Int
  | [], _, _ => -1
  | x :: r, v, i => if jsStrictEq x v then (i : Int) else jsIndexOfAux r v (i + 1)

def jsIndexOf (vs : List JsVal) (v : JsVal) : Int := jsIndexOfAux vs v 0

/-- one errors-object assignment (`errors[key] = err`), or nothing -/
def applyErrU (errors : ErrL) : Option (String × ErrE) → ErrL
  | none => errors
  | some (a, e) => setL errors a e

/-- `if (!skip && !schemaHasProperty) errors.properties = new Error(…)` -/
def checkProperties (kind k : String) (skip schemaHas : Bool) :
    Option (String × ErrE) :=
  if !skip && !schemaHas then
    some ("properties",
      .generic ("Property not allowed \x7b" ++ k ++ "\x7d for " ++ kind ++ " Entity"))
  else none

def typeValidB (t : String) (pv : JsVal) : Bool :=
  if t = "array" then isArrV pv
  else if t = "int" then
    match pv with
    | .vint _ s => jsParseIntNoRadixIsNum s
    | _ => isIntV pv
  else if t = "double" then
    match pv with
    | .vdouble _ s => jsParseFloatIsNum s
    | _ => isFloatV pv || isIntV pv
  else if t = "buffer" then isBufV pv
  else if t = "geoPoint" then isGeoV pv
  else jsTypeof pv == t

/-- `validateDateTime` returns no error iff the value is a `Date` instance
or a string matching the date regex that `moment` accepts. -/
def validateDateTimeOk (lib : ExtLib) (pv : JsVal) : Bool :=
  isDateV pv ||
  (match pv with
   | .vstr s => hasDatePat s && lib.momentValid s
   | _ => false)

/-- The type check, active when `!skip && schemaHasProperty && !isValueEmpty`
and the descriptor carries a `type`; a `datetime` failure lands under the
`datetime` key, any other failure under the field's own key. -/
def checkType (lib : ExtLib) (k : String) (desc : FieldDesc) (pv : JsVal)
    (active : Bool) : Option (String × ErrE) :=
  if !active then none
  else
    match desc.type with
    | none => none
    | some t =>
      if t = "datetime" then
        if validateDateTimeOk lib pv then none
        else some ("datetime", .dtObj ("Wrong date format for " ++ k))
      else if typeValidB t pv then none
      else some (k, .validation ("Data type error for " ++ k))

/-- `isRequired && isValueEmpty → errors[k] = ValidatorError('Required')`. -/
def checkRequired (k : String) (desc : FieldDesc)
    (skip schemaHas empty : Bool) : Option (String × ErrE) :=
  if !skip && (schemaHas && desc.required == some true) && empty then
    some (k, .validator (some "Required") ("Property \x7b" ++ k ++ "\x7d is required"))
  else none

/-- The named-format check (`validator[rule]`), run when the descriptor
declares `validate` and the current value is truthy, not `''`, not `null`. -/
def checkFormat (lib : ExtLib) (k : String) (desc : FieldDesc)
    (skip schemaHas : Bool) (curVal : JsVal) : Option (String × ErrE) :=
  match desc.validate with
  | none => none
  | some rule =>
    if !skip && schemaHas && truthyJ curVal &&
        (curVal != JsVal.vstr "") && (curVal != JsVal.vnull) then
      if lib.validatorFn rule curVal then none
      else some (k, .validator none ("Wrong format for property \x7b" ++ k ++ "\x7d"))
    else none

/-- The preset-values check (`values.indexOf(entityData[k]) < 0`), run when
the descriptor declares `values` and the current value is not `''`.
(The range text appended to the message in the source is omitted.) -/
def checkValues (k : String) (desc : FieldDesc) (skip schemaHas : Bool)
    (curVal : JsVal) : Option (String × ErrE) :=
  match desc.values with
  | none => none
  | some vs =>
    if !skip && schemaHas && (curVal != JsVal.vstr "") then
      if jsIndexOf vs curVal < 0 then
        some (k, .generic ("Value not allowed for " ++ k))
      else none
    else none

structure VState where
  data : ObjL
  errors : ErrL
  deriving Repr

/-- One iteration of the `Object.keys(this.entityData).forEach` body. -/
def processKey (lib : ExtLib) (kind : String) (sch : SchemaV) (st : VState)
    (k : String) : VState :=
  let propertyValue := (lookupL st.data k).getD .vundef
  let schemaHas := hasOwnL sch.paths k
  let empty := valueIsEmptyB propertyValue
  let pv := trimIfStr propertyValue
  let isVirt : Bool := decide (k ∈ sch.virtuals)
  let data' := if isVirt then delL st.data k else st.data
  let skip := isVirt || (!schemaHas && sch.explicitOnly == some false)
  let desc := (lookupL sch.paths k).getD {}
  let curVal := (lookupL data' k).getD .vundef
  let e1 := applyErrU st.errors (checkProperties kind k skip schemaHas)
  let e2 := applyErrU e1 (checkType lib k desc pv (!skip && schemaHas && !empty))
  let e3 := applyErrU e2 (checkRequired k desc skip schemaHas empty)
  let e4 := applyErrU e3 (checkFormat lib k desc skip schemaHas curVal)
  let e5 := applyErrU e4 (checkValues k desc skip schemaHas curVal)
  ⟨data', e5⟩

def validateRun (lib : ExtLib) (kind : String) (sch : SchemaV)
    (bag : ObjL) : VState :=
  (bag.map Prod.fst).foldl (processKey lib kind sch) ⟨bag, []⟩

def validateErrors (lib : ExtLib) (kind : String) (sch : SchemaV)
    (bag : ObjL) : ErrL :=
  (validateRun lib kind sch bag).errors

/-- `true` iff `validate` reports `{success:true}`
(`Object.keys(errors).length > 0` otherwise). -/
def validateSuccess (lib : ExtLib) (kind : String) (sch : SchemaV)
    (bag : ObjL) : Bool :=
  (validateErrors lib kind sch bag).isEmpty

/-- A `ValidatorError` of kind `Required`. -/
def isRequiredErr : ErrE → Bool
  | .validator (some "Required") _ => true
  | _ => false

theorem checkProperties_key {kind k : String} {skip sh : Bool}
    {p : String × ErrE} (h : checkProperties kind k skip sh = some p) :
    p.1 = "properties" := by
  unfold checkProperties at h
  split at h
  · cases h; rfl
  · cases h

theorem checkType_key {lib : ExtLib} {k : String} {desc : FieldDesc}
    {pv : JsVal} {active : Bool} {p : String × ErrE}
    (h : checkType lib k desc pv active = some p) :
    p.1 = "datetime" ∨ p.1 = k := by
  unfold checkType at h
  split at h
  · cases h
  · split at h
    · cases h
    · split at h
      · split at h
        · cases h
        · cases h; exact Or.inl rfl
      · split at h
        · cases h
        · cases h; exact Or.inr rfl

theorem checkRequired_key {k : String} {desc : FieldDesc}
    {skip sh empty : Bool} {p : String × ErrE}
    (h : checkRequired k desc skip sh empty = some p) : p.1 = k := by
  unfold checkRequired at h
  split at h
  · cases h; rfl
  · cases h

theorem checkFormat_key {lib : ExtLib} {k : String} {desc : FieldDesc}
    {skip sh : Bool} {curVal : JsVal} {p : String × ErrE}
    (h : checkFormat lib k desc skip sh curVal = some p) : p.1 = k := by
  unfold checkFormat at h
  split at h
  · cases h
  · split at h
    · split at h
      · cases h
      · cases h; rfl
    · cases h

theorem checkValues_key {k : String} {desc : FieldDesc} {skip sh : Bool}
    {curVal : JsVal} {p : String × ErrE}
    (h : checkValues k desc skip sh curVal = some p) : p.1 = k := by
  unfold checkValues at h
  split at h
  · cases h
  · split at h
    · split at h
      · cases h; rfl
      · cases h
    · cases h

theorem lookupL_applyErrU_ne {errors : ErrL} {u : Option (String × ErrE)}
    {k : String} (h : ∀ p, u = some p → p.1 ≠ k) :
    lookupL (applyErrU errors u) k = lookupL errors k := by
  cases u with
  | none => rfl
  | some p =>
    obtain ⟨a, e⟩ := p
    exact lookupL_setL_ne errors a k e (h (a, e) rfl)

/-- Processing a key other than `k` never touches `errors[k]` (for `k` not
one of the synthetic keys `properties` / `datetime`) nor `data[k]`. -/
theorem processKey_other (lib : ExtLib) (kind : String) (sch : SchemaV)
    (st : VState) (k' k : String) (hk : k' ≠ k)
    (h1 : k ≠ "properties") (h2 : k ≠ "datetime") :
    lookupL (processKey lib kind sch st k').errors k = lookupL st.errors k ∧
    lookupL (processKey lib kind sch st k').data k = lookupL st.data k := by
  constructor
  · simp only [processKey]
    rw [lookupL_applyErrU_ne (fun p hp => by rw [checkValues_key hp]; exact hk),
      lookupL_applyErrU_ne (fun p hp => by rw [checkFormat_key hp]; exact hk),
      lookupL_applyErrU_ne (fun p hp => by rw [checkRequired_key hp]; exact hk),
      lookupL_applyErrU_ne (fun p hp => by
        rcases checkType_key hp with h | h
        · rw [h]; exact Ne.symm h2
        · rw [h]; exact hk),
      lookupL_applyErrU_ne (fun p hp => by
        rw [checkProperties_key hp]; exact Ne.symm h1)]
  · simp only [processKey]
    split
    · rw [lookupL_delL]
      simp [Ne.symm hk]
    · rfl

theorem validate_fold_other (lib : ExtLib) (kind : String) (sch : SchemaV)
    (ks : List String) (k : String) (h1 : k ≠ "properties")
    (h2 : k ≠ "datetime") (hks : ∀ k' ∈ ks, k' ≠ k) :
    ∀ st : VState,
      lookupL (ks.foldl (processKey lib kind sch) st).errors k =
        lookupL st.errors k ∧
      lookupL (ks.foldl (processKey lib kind sch) st).data k =
        lookupL st.data k := by
  induction ks with
  | nil => intro st; exact ⟨rfl, rfl⟩
  | cons a r ih =>
    intro st
    have ha := hks a (List.mem_cons_self a r)
    have h' := processKey_other lib kind sch st a k ha h1 h2
    have hr := ih (fun k' hk' => hks k' (List.mem_cons_of_mem _ hk'))
      (processKey lib kind sch st a)
    exact ⟨hr.1.trans h'.1, hr.2.trans h'.2⟩

theorem checkType_self_val {lib : ExtLib} {k : String} {desc : FieldDesc}
    {pv : JsVal} {active : Bool} {p : String × ErrE}
    (h : checkType lib k desc pv active = some p) (hp : p.1 ≠ "datetime") :
    ∃ msg, p = (k, ErrE.validation msg) := by
  unfold checkType at h
  split at h
  · cases h
  · split at h
    · cases h
    · split at h
      · split at h
        · cases h
        · cases h
          exact absurd rfl hp
      · split at h
        · cases h
        · cases h
          exact ⟨_, rfl⟩

/-- Processing the key `k` itself, when `k` holds value `v`, is declared
with `desc`, is not a virtual, and has no `validate`/`values` rules: the
data bag is unchanged; with an empty value `errors[k]` becomes the
`Required` validator error; with a non-empty value `errors[k]` is either
left alone or set to a type-mismatch `ValidationError`. -/
theorem processKey_self_required (lib : ExtLib) (kind : String)
    (sch : SchemaV) (st : VState) (k : String) (v : JsVal) (desc : FieldDesc)
    (hlook : lookupL st.data k = some v)
    (hdesc : lookupL sch.paths k = some desc)
    (hreq : desc.required = some true)
    (hval : desc.validate = none)
    (hvals : desc.values = none)
    (hvirt : k ∉ sch.virtuals)
    (h2 : k ≠ "datetime") :
    (processKey lib kind sch st k).data = st.data ∧
    (valueIsEmptyB v = true →
      lookupL (processKey lib kind sch st k).errors k =
        some (.validator (some "Required")
          ("Property \x7b" ++ k ++ "\x7d is required"))) ∧
    (valueIsEmptyB v = false →
      lookupL (processKey lib kind sch st k).errors k = lookupL st.errors k ∨
      ∃ msg, lookupL (processKey lib kind sch st k).errors k =
        some (.validation msg)) := by
  have hsh : hasOwnL sch.paths k = true := by simp [hasOwnL, hdesc]
  have hvirtB : decide (k ∈ sch.virtuals) = false := by simp [hvirt]
  have hpv : (lookupL st.data k).getD .vundef = v := by rw [hlook]; rfl
  have hdesc' : (lookupL sch.paths k).getD {} = desc := by rw [hdesc]; rfl
  have hcp : checkProperties kind k false true = none := by
    simp [checkProperties]
  have hcf : ∀ cv, checkFormat lib k desc false true cv = none := by
    intro cv
    simp [checkFormat, hval]
  have hcv : ∀ cv, checkValues k desc false true cv = none := by
    intro cv
    simp [checkValues, hvals]
  have hshape : processKey lib kind sch st k =
      ⟨st.data,
        applyErrU
          (applyErrU st.errors
            (checkType lib k desc (trimIfStr v) (!valueIsEmptyB v)))
          (checkRequired k desc false true (valueIsEmptyB v))⟩ := by
    simp only [processKey, hvirtB, hpv, hdesc', hsh, Bool.false_or,
      Bool.not_true, Bool.false_and, Bool.not_false, Bool.true_and, if_false,
      Bool.false_eq_true, hcp, hcf, hcv, applyErrU]
  refine ⟨?_, ?_, ?_⟩
  · rw [hshape]
  · intro hempty
    rw [hshape]
    have hct : checkType lib k desc (trimIfStr v) (!valueIsEmptyB v) = none := by
      rw [hempty]
      simp [checkType]
    have hcr : checkRequired k desc false true (valueIsEmptyB v) =
        some (k, .validator (some "Required")
          ("Property \x7b" ++ k ++ "\x7d is required")) := by
      rw [hempty]
      simp [checkRequired, hreq]
    simp only [hct, hcr, applyErrU]
    exact lookupL_setL_self st.errors k _
  · intro hempty
    rw [hshape]
    have hcr : checkRequired k desc false true (valueIsEmptyB v) = none := by
      rw [hempty]
      simp [checkRequired]
    simp only [hcr, applyErrU]
    cases hct : checkType lib k desc (trimIfStr v) (!valueIsEmptyB v) with
    | none => exact Or.inl rfl
    | some p =>
      obtain ⟨a, e⟩ := p
      by_cases ha : a = "datetime"
      · subst ha
        simp only [applyErrU]
        exact Or.inl (lookupL_setL_ne st.errors _ k e (Ne.symm h2))
      · obtain ⟨msg, hmsg⟩ := checkType_self_val hct ha
        cases hmsg
        simp only [applyErrU]
        exact Or.inr ⟨msg, lookupL_setL_self st.errors k _⟩

/-- C5 (amended): for a field `k` present in the data bag, declared with
`required: true`, not also declared as a virtual, with no `validate`
(named-format) and no `values` (enumeration) rule, and not named after a
synthetic error key (`properties` / `datetime`): an empty value always
leaves a `Required` `ValidatorError` under `k` and validation fails; a
non-empty value never produces a `Required` error for `k` (at most a
type-mismatch `ValidationError`). Without the `validate`/`values`/virtual
exclusions the claim fails: those later checks overwrite `errors[k]`
(last-write-wins), and a virtual field is deleted and skipped. -/
theorem C5_required (lib : ExtLib) (kind : String) (sch : SchemaV)
    (bag : ObjL) (k : String) (v : JsVal) (desc : FieldDesc)
    (hnd : (bag.map Prod.fst).Nodup)
    (hmem : (k, v) ∈ bag)
    (hdesc : lookupL sch.paths k = some desc)
    (hreq : desc.required = some true)
    (hval : desc.validate = none)
    (hvals : desc.values = none)
    (hvirt : k ∉ sch.virtuals)
    (h1 : k ≠ "properties") (h2 : k ≠ "datetime") :
    (valueIsEmptyB v = true →
      lookupL (validateErrors lib kind sch bag) k =
        some (.validator (some "Required")
          ("Property \x7b" ++ k ++ "\x7d is required")) ∧
      validateSuccess lib kind sch bag = false) ∧
    (valueIsEmptyB v = false →
      ∀ e, lookupL (validateErrors lib kind sch bag) k = some e →
        isRequiredErr e = false) := by
  have hkmem : k ∈ bag.map Prod.fst := List.mem_map.mpr ⟨(k, v), hmem, rfl⟩
  obtain ⟨l1, l2, hsplit⟩ := List.append_of_mem hkmem
  have hnd' : (l1 ++ k :: l2).Nodup := by rw [← hsplit]; exact hnd
  have hmid := List.nodup_middle.mp hnd'
  have hknot : k ∉ l1 ++ l2 := (List.nodup_cons.mp hmid).1
  have hk1 : ∀ k' ∈ l1, k' ≠ k := fun k' h' hEq =>
    hknot (hEq ▸ List.mem_append_left _ h')
  have hk2 : ∀ k' ∈ l2, k' ≠ k := fun k' h' hEq =>
    hknot (hEq ▸ List.mem_append_right _ h')
  have hA := validate_fold_other lib kind sch l1 k h1 h2 hk1
    ⟨bag, []⟩
  have hAe : lookupL (l1.foldl (processKey lib kind sch) ⟨bag, []⟩).errors k =
      none := hA.1
  have hAd : lookupL (l1.foldl (processKey lib kind sch) ⟨bag, []⟩).data k =
      some v := hA.2.trans (lookupL_of_mem_nodup hmem hnd)
  have hB := processKey_self_required lib kind sch
    (l1.foldl (processKey lib kind sch) ⟨bag, []⟩) k v desc hAd hdesc hreq
    hval hvals hvirt h2
  have hC := validate_fold_other lib kind sch l2 k h1 h2 hk2
    (processKey lib kind sch (l1.foldl (processKey lib kind sch) ⟨bag, []⟩) k)
  have hrun : validateRun lib kind sch bag =
      l2.foldl (processKey lib kind sch)
        (processKey lib kind sch
          (l1.foldl (processKey lib kind sch) ⟨bag, []⟩) k) := by
    unfold validateRun
    rw [hsplit, List.foldl_append]
    rfl
  constructor
  · intro hempty
    have he : lookupL (validateErrors lib kind sch bag) k =
        some (.validator (some "Required")
          ("Property \x7b" ++ k ++ "\x7d is required")) := by
      unfold validateErrors
      rw [hrun, hC.1]
      exact hB.2.1 hempty
    refine ⟨he, ?_⟩
    unfold validateSuccess
    cases hx : validateErrors lib kind sch bag with
    | nil =>
      rw [hx] at he
      simp [lookupL] at he
    | cons p r => rfl
  · intro hempty e hee
    unfold validateErrors at hee
    rw [hrun, hC.1] at hee
    rcases hB.2.2 hempty with hcase | ⟨msg, hcase⟩
    · rw [hcase, hAe] at hee
      cases hee
    · rw [hcase] at hee
      cases hee
      rfl

/-- A concrete external library for closed evaluations (no rule is ever
invoked in these instances). -/
def lib0 : ExtLib := ⟨fun _ _ => true, fun _ => true⟩

/-- The descriptor `{required: true, values: ['red','blue']}`. -/
def colorDesc : FieldDesc :=
  { required := some true, values := some [.vstr "red", .vstr "blue"] }

def schColor : SchemaV := ⟨[("color", colorDesc)], [], none⟩

/-- The descriptor `{required: true}` alone. -/
def nameReqDesc : FieldDesc := { required := some true }

def schNameReq : SchemaV := ⟨[("name", nameReqDesc)], [], none⟩

/-- C5 counterexample: field `color` declared `{required: true,
values: ['red','blue']}` with value `null`. The `Required` error is set at
step 4, but the preset-values check also runs (`null !== ''`) and
overwrites `errors.color` with its generic error — validation still fails,
but not with a `ValidatorError` of kind `Required` for the field, as the
claim demands. -/
theorem C5_counterexample :
    lookupL (validateErrors lib0 "User" schColor [("color", .vnull)])
        "color" = some (.generic "Value not allowed for color") ∧
    validateSuccess lib0 "User" schColor [("color", .vnull)] = false ∧
    isRequiredErr (.generic "Value not allowed for color") = false := by
  refine ⟨?_, ?_, ?_⟩ <;> rfl

/-- C5 witness: `{name: {required: true}}` (no other rules). A `null`
value yields the `Required` error and failure; the value `'John'` yields
no `Required` error for `name`. -/
theorem C5_required_witness :
    lookupL (validateErrors lib0 "User" schNameReq [("name", .vnull)])
        "name" =
      some (.validator (some "Required") "Property \x7bname\x7d is required") ∧
    validateSuccess lib0 "User" schNameReq [("name", .vnull)] = false ∧
    (∀ e, lookupL (validateErrors lib0 "User" schNameReq
        [("name", .vstr "John")]) "name" = some e →
      isRequiredErr e = false) := by
  have hempty := (C5_required lib0 "User" schNameReq
    [("name", .vnull)] "name" .vnull nameReqDesc
    (by decide) (by decide) rfl rfl rfl rfl (by decide)
    (by decide) (by decide)).1 (by decide)
  have hfull := (C5_required lib0 "User" schNameReq
    [("name", .vstr "John")] "name" (.vstr "John") nameReqDesc
    (by decide) (by decide) rfl rfl rfl rfl (by decide)
    (by decide) (by decide)).2 (by decide)
  exact ⟨hempty.1, hempty.2, hfull⟩

/-! ## C9 (continued) — the full `save` pipeline

`Model.prototype.save` runs after the schema's default pre-`save`
middleware (schema.js, `defaultMiddleware`): with the default option
`validateBeforeSave: true` the hook calls `this.validate()` — which
deletes every virtual key from `this.entityData` — and rejects with the
first validation error; only then does the save body apply the
`modifiedOn` step and serialize. -/

theorem lookupL_none_of_not_mem_keys {α : Type} {l : List (String × α)}
    {k : String} (h : k ∉ l.map Prod.fst) : lookupL l k = none := by
  induction l with
  | nil => rfl
  | cons p r ih =>
    obtain ⟨a, b⟩ := p
    simp only [List.map_cons, List.mem_cons, not_or] at h
    have hak : a ≠ k := fun hEq => h.1 hEq.symm
    simp only [lookupL, if_neg hak]
    exact ih h.2

/-- Processing key `k'` leaves `data[k]` unchanged unless `k'` is a
virtual, in which case `data[k']` is deleted. -/
theorem processKey_data_lookup (lib : ExtLib) (kind : String) (sch : SchemaV)
    (st : VState) (k' k : String) :
    lookupL (processKey lib kind sch st k').data k =
      if k' ∈ sch.virtuals ∧ k = k' then none else lookupL st.data k := by
  simp only [processKey]
  by_cases hv : k' ∈ sch.virtuals
  · rw [decide_eq_true hv, if_pos rfl, lookupL_delL]
    simp [hv]
  · have h2 : ¬(k' ∈ sch.virtuals ∧ k = k') := fun h => hv h.1
    rw [decide_eq_false hv, if_neg (by simp), if_neg h2]

/-- Across the whole key loop, `data[k]` ends `none` when `k` is a
processed virtual and is otherwise untouched. -/
theorem validate_fold_data (lib : ExtLib) (kind : String) (sch : SchemaV)
    (ks : List String) (k : String) :
    ∀ st : VState,
      lookupL (ks.foldl (processKey lib kind sch) st).data k =
        if k ∈ ks ∧ k ∈ sch.virtuals then none else lookupL st.data k := by
  induction ks with
  | nil =>
    intro st
    simp
  | cons a r ih =>
    intro st
    rw [List.foldl_cons, ih (processKey lib kind sch st a),
      processKey_data_lookup lib kind sch st a k]
    by_cases hv : k ∈ sch.virtuals
    · by_cases hka : k = a
      · subst hka
        rw [if_pos (show k ∈ sch.virtuals ∧ k = k from ⟨hv, rfl⟩),
          if_pos (show k ∈ k :: r ∧ k ∈ sch.virtuals from
            ⟨List.mem_cons_self _ _, hv⟩)]
        by_cases hkr : k ∈ r ∧ k ∈ sch.virtuals
        · rw [if_pos hkr]
        · rw [if_neg hkr]
      · by_cases hkr : k ∈ r
        · rw [if_pos (show k ∈ r ∧ k ∈ sch.virtuals from ⟨hkr, hv⟩),
            if_pos (show k ∈ a :: r ∧ k ∈ sch.virtuals from
              ⟨List.mem_cons_of_mem _ hkr, hv⟩)]
        · have h1 : ¬(k ∈ r ∧ k ∈ sch.virtuals) := fun h => hkr h.1
          have h2 : ¬(a ∈ sch.virtuals ∧ k = a) := fun h => hka h.2
          have h3 : ¬(k ∈ a :: r ∧ k ∈ sch.virtuals) := by
            rintro ⟨hmem, -⟩
            rcases List.mem_cons.mp hmem with h | h
            · exact hka h
            · exact hkr h
          rw [if_neg h1, if_neg h2, if_neg h3]
    · have h1 : ¬(k ∈ r ∧ k ∈ sch.virtuals) := fun h => hv h.2
      have h2 : ¬(a ∈ sch.virtuals ∧ k = a) := fun h => hv (by
        rw [h.2]
        exact h.1)
      have h3 : ¬(k ∈ a :: r ∧ k ∈ sch.virtuals) := fun h => hv h.2
      rw [if_neg h1, if_neg h2, if_neg h3]

/-- The `save` pipeline from the pre-`save` middleware on: when
`validateBeforeSave` holds (the default), `validate` runs first — its
(mutating) pass over the data bag deletes virtual keys — and a nonempty
errors object rejects with the first error; otherwise the save body
applies the `modifiedOn` step to the surviving bag. -/
def saveOperation (lib : ExtLib) (kind : String) (sch : SchemaV)
    (vbs : Bool) (entityData : ObjL) (now : JsVal) : Except ErrE ObjL :=
  if vbs then
    match (validateRun lib kind sch entityData).errors with
    | [] => .ok (saveEntityData sch.paths
        (validateRun lib kind sch entityData).data now)
    | (_, e) :: _ => .error e
  else .ok (saveEntityData sch.paths entityData now)

/-- A schema declaring paths `name` / `lastname` and the virtual
`fullname` (no `modifiedOn`). -/
def schVirt : SchemaV := ⟨[("name", {}), ("lastname", {})], ["fullname"], none⟩

/-- A schema declaring paths `modifiedOn` and `x` (no virtuals). -/
def schMod : SchemaV := ⟨[("modifiedOn", {}), ("x", {})], [], none⟩

/-- C9 (amended): `save` under the default pre-`save` validation
overwrites `modifiedOn` with the current date-time whenever the schema
declares that path; but on a schema without a `modifiedOn` path it is not
true that no field is silently mutated — the validation pass deletes
every virtual key from the data bag, and only with `validateBeforeSave`
disabled does the bag survive save untouched. -/
theorem C9_save_pipeline (lib : ExtLib) (kind : String) (sch : SchemaV)
    (vbs : Bool) (ed : ObjL) (now : JsVal) :
    (∀ out, saveOperation lib kind sch vbs ed now = .ok out →
      hasOwnL sch.paths "modifiedOn" = true →
      lookupL out "modifiedOn" = some now) ∧
    (hasOwnL sch.paths "modifiedOn" = false →
      ∀ out, saveOperation lib kind sch true ed now = .ok out →
        ∀ k, lookupL out k =
          if k ∈ sch.virtuals then none else lookupL ed k) ∧
    (vbs = false → hasOwnL sch.paths "modifiedOn" = false →
      saveOperation lib kind sch vbs ed now = .ok ed) := by
  refine ⟨?_, ?_, ?_⟩
  · intro out hok hmod
    unfold saveOperation at hok
    cases vbs with
    | false =>
      rw [if_neg (by simp)] at hok
      have hok' : (Except.ok (saveEntityData sch.paths ed now) :
          Except ErrE ObjL) = Except.ok out := hok
      injection hok' with h
      subst h
      simp [saveEntityData, hmod, lookupL_setL_self]
    | true =>
      rw [if_pos rfl] at hok
      cases herr : (validateRun lib kind sch ed).errors with
      | nil =>
        rw [herr] at hok
        have hok' : (Except.ok (saveEntityData sch.paths
            (validateRun lib kind sch ed).data now) :
            Except ErrE ObjL) = Except.ok out := hok
        injection hok' with h
        subst h
        simp [saveEntityData, hmod, lookupL_setL_self]
      | cons p rest =>
        rw [herr] at hok
        obtain ⟨a, e⟩ := p
        have hok' : (Except.error e : Except ErrE ObjL) = Except.ok out := hok
        cases hok'
  · intro hmod out hok k
    unfold saveOperation at hok
    rw [if_pos rfl] at hok
    cases herr : (validateRun lib kind sch ed).errors with
    | cons p rest =>
      rw [herr] at hok
      obtain ⟨a, e⟩ := p
      have hok' : (Except.error e : Except ErrE ObjL) = Except.ok out := hok
      cases hok'
    | nil =>
      rw [herr] at hok
      have hok' : (Except.ok (saveEntityData sch.paths
          (validateRun lib kind sch ed).data now) :
          Except ErrE ObjL) = Except.ok out := hok
      injection hok' with h
      subst h
      simp only [saveEntityData, hmod, Bool.false_eq_true, if_false]
      have hd := validate_fold_data lib kind sch (ed.map Prod.fst) k ⟨ed, []⟩
      unfold validateRun
      rw [hd]
      by_cases hv : k ∈ sch.virtuals
      · rw [if_pos hv]
        by_cases hks : k ∈ ed.map Prod.fst
        · rw [if_pos (show k ∈ ed.map Prod.fst ∧ k ∈ sch.virtuals from
            ⟨hks, hv⟩)]
        · have h1 : ¬(k ∈ ed.map Prod.fst ∧ k ∈ sch.virtuals) :=
            fun h => hks h.1
          rw [if_neg h1]
          exact lookupL_none_of_not_mem_keys hks
      · have h1 : ¬(k ∈ ed.map Prod.fst ∧ k ∈ sch.virtuals) :=
          fun h => hv h.2
        rw [if_neg hv, if_neg h1]
  · intro hvbs hmod
    subst hvbs
    unfold saveOperation
    rw [if_neg (by simp)]
    simp [saveEntityData, hmod]

/-- C9 counterexample: `new User({fullname: 'John Snow'}).save()` on a
schema with virtual `fullname` and no `modifiedOn` path. The default
pre-`save` validation deletes the virtual key, so the persisted bag is
empty — the caller's `fullname` field was silently removed by `save`
although no `modifiedOn` path is declared, contradicting the claim that
such schemas have no field silently mutated. -/
theorem C9_counterexample :
    saveOperation lib0 "User" schVirt true [("fullname", .vstr "John Snow")]
        (.vdate 7 0) = .ok [] ∧
    lookupL [("fullname", JsVal.vstr "John Snow")] "fullname" =
      some (.vstr "John Snow") ∧
    hasOwnL schVirt.paths "modifiedOn" = false := by
  refine ⟨?_, ?_, ?_⟩ <;> rfl

/-- C9 witness: with a declared `modifiedOn` path the caller-set value is
overwritten by the timestamp; on the virtual-declaring schema the
surviving bag is the caller's bag minus the virtual keys; with
`validateBeforeSave` disabled and no `modifiedOn` path the bag is
untouched. -/
theorem C9_save_pipeline_witness :
    saveOperation lib0 "User" schMod true
        [("modifiedOn", JsVal.vstr "caller"), ("x", JsVal.vstr "a")]
        (JsVal.vdate 7 0) =
      .ok [("modifiedOn", JsVal.vdate 7 0), ("x", JsVal.vstr "a")] ∧
    lookupL [("modifiedOn", JsVal.vdate 7 0), ("x", JsVal.vstr "a")]
        "modifiedOn" = some (JsVal.vdate 7 0) ∧
    (∀ k, lookupL ([] : ObjL) k =
      if k ∈ schVirt.virtuals then none
      else lookupL [("fullname", JsVal.vstr "John Snow")] k) ∧
    saveOperation lib0 "User" schVirt false [("name", JsVal.vstr "John")]
        (JsVal.vdate 7 0) = .ok [("name", JsVal.vstr "John")] := by
  have h1 := C9_save_pipeline lib0 "User" schMod true
      [("modifiedOn", JsVal.vstr "caller"), ("x", JsVal.vstr "a")]
      (JsVal.vdate 7 0)
  have h2 := C9_save_pipeline lib0 "User" schVirt true
      [("fullname", JsVal.vstr "John Snow")] (JsVal.vdate 7 0)
  have h3 := C9_save_pipeline lib0 "User" schVirt false
      [("name", JsVal.vstr "John")] (JsVal.vdate 7 0)
  refine ⟨by rfl, ?_, ?_, ?_⟩
  · exact h1.1 [("modifiedOn", JsVal.vdate 7 0), ("x", JsVal.vstr "a")]
      (by rfl) (by rfl)
  · exact h2.2.1 (by rfl) [] (by rfl)
  · exact h3.2.2 rfl (by rfl)

end Gstore
